import Mathlib

/-!
Verification development for the collection-type layer of a Terraform
provider framework (list / map / set attribute types), embedded shallowly
from the Go sources in `types/basetypes` and `internal/fromproto5`.
-/

set_option maxHeartbeats 1000000

namespace TfFw

/-- Wire type descriptors, modelling `tftypes.Type` (the external wire
collaborator): primitives plus list / set / map constructors. -/
inductive TFType : Type where
  | string : TFType
  | number : TFType
  | bool : TFType
  | list (elem : TFType) : TFType
  | set (elem : TFType) : TFType
  | map (elem : TFType) : TFType
deriving DecidableEq, Repr

/-- Shape check modelling `typ.Is(tftypes.List{})`: true for any list,
ignoring the element type. -/
def TFType.isList : TFType → Bool
  | .list _ => true
  | _ => false

/-- Shape check modelling `typ.Is(tftypes.Set{})`. -/
def TFType.isSet : TFType → Bool
  | .set _ => true
  | _ => false

/-- Shape check modelling `typ.Is(tftypes.Map{})`. -/
def TFType.isMap : TFType → Bool
  | .map _ => true
  | _ => false

/-- Modelled from the spec: the wire collaborator's type rendering
(`tftypes.Type.String()`), used only inside error message text. -/
def TFType.render : TFType → String
  | .string => "tftypes.String"
  | .number => "tftypes.Number"
  | .bool => "tftypes.Bool"
  | .list e => "tftypes.List[" ++ TFType.render e ++ "]"
  | .set e => "tftypes.Set[" ++ TFType.render e ++ "]"
  | .map e => "tftypes.Map[" ++ TFType.render e ++ "]"

/-- Wire values, modelling `tftypes.Value`: an optional type descriptor
(`none` models a Go nil type) together with the value content, which is
unknown, null, a string payload, an ordered sequence of children (lists,
sets) or a string-keyed collection of children (maps). -/
inductive TFValue : Type where
  | unknown (typ : Option TFType) : TFValue
  | null (typ : Option TFType) : TFValue
  | str (typ : Option TFType) (s : String) : TFValue
  | coll (typ : Option TFType) (elems : List TFValue) : TFValue
  | mapv (typ : Option TFType) (entries : List (String × TFValue)) : TFValue

mutual
/-- Structural equality of wire values, modelling `tftypes.Value.Equal`
(deep equality of type descriptor and content). -/
def TFValue.beq : TFValue → TFValue → Bool
  | .unknown t1, .unknown t2 => t1 == t2
  | .null t1, .null t2 => t1 == t2
  | .str t1 s1, .str t2 s2 => t1 == t2 && s1 == s2
  | .coll t1 es1, .coll t2 es2 => t1 == t2 && TFValue.beqList es1 es2
  | .mapv t1 es1, .mapv t2 es2 => t1 == t2 && TFValue.beqEntries es1 es2
  | _, _ => false

def TFValue.beqList : List TFValue → List TFValue → Bool
  | [], [] => true
  | c :: cs, d :: ds => TFValue.beq c d && TFValue.beqList cs ds
  | _, _ => false

def TFValue.beqEntries : List (String × TFValue) → List (String × TFValue) → Bool
  | [], [] => true
  | e :: es, f :: fs => e.1 == f.1 && TFValue.beq e.2 f.2 && TFValue.beqEntries es fs
  | _, _ => false
end

mutual
theorem TFValue.beqv_spec : ∀ (a b : TFValue), TFValue.beq a b = true ↔ a = b
  | .unknown t1, .unknown t2 => by simp [TFValue.beq]
  | .unknown _, .null _ => by simp [TFValue.beq]
  | .unknown _, .str _ _ => by simp [TFValue.beq]
  | .unknown _, .coll _ _ => by simp [TFValue.beq]
  | .unknown _, .mapv _ _ => by simp [TFValue.beq]
  | .null _, .unknown _ => by simp [TFValue.beq]
  | .null t1, .null t2 => by simp [TFValue.beq]
  | .null _, .str _ _ => by simp [TFValue.beq]
  | .null _, .coll _ _ => by simp [TFValue.beq]
  | .null _, .mapv _ _ => by simp [TFValue.beq]
  | .str _ _, .unknown _ => by simp [TFValue.beq]
  | .str _ _, .null _ => by simp [TFValue.beq]
  | .str t1 s1, .str t2 s2 => by simp [TFValue.beq]
  | .str _ _, .coll _ _ => by simp [TFValue.beq]
  | .str _ _, .mapv _ _ => by simp [TFValue.beq]
  | .coll _ _, .unknown _ => by simp [TFValue.beq]
  | .coll _ _, .null _ => by simp [TFValue.beq]
  | .coll _ _, .str _ _ => by simp [TFValue.beq]
  | .coll t1 es1, .coll t2 es2 => by
      simp [TFValue.beq, TFValue.beqvList_spec es1 es2]
  | .coll _ _, .mapv _ _ => by simp [TFValue.beq]
  | .mapv _ _, .unknown _ => by simp [TFValue.beq]
  | .mapv _ _, .null _ => by simp [TFValue.beq]
  | .mapv _ _, .str _ _ => by simp [TFValue.beq]
  | .mapv _ _, .coll _ _ => by simp [TFValue.beq]
  | .mapv t1 es1, .mapv t2 es2 => by
      simp [TFValue.beq, TFValue.beqvEntries_spec es1 es2]

theorem TFValue.beqvList_spec : ∀ (a b : List TFValue), TFValue.beqList a b = true ↔ a = b
  | [], [] => by simp [TFValue.beqList]
  | [], _ :: _ => by simp [TFValue.beqList]
  | _ :: _, [] => by simp [TFValue.beqList]
  | c :: cs, d :: ds => by
      simp [TFValue.beqList, TFValue.beqv_spec c d, TFValue.beqvList_spec cs ds]

theorem TFValue.beqvEntries_spec :
    ∀ (a b : List (String × TFValue)), TFValue.beqEntries a b = true ↔ a = b
  | [], [] => by simp [TFValue.beqEntries]
  | [], _ :: _ => by simp [TFValue.beqEntries]
  | _ :: _, [] => by simp [TFValue.beqEntries]
  | e :: es, f :: fs => by
      rw [show (e :: es = f :: fs) ↔ (e = f ∧ es = fs) by simp]
      rw [show (e = f) ↔ (e.1 = f.1 ∧ e.2 = f.2) from Prod.ext_iff]
      simp [TFValue.beqEntries, TFValue.beqv_spec e.2 f.2, TFValue.beqvEntries_spec es fs,
        and_assoc]
end

instance : DecidableEq TFValue := fun a b =>
  decidable_of_iff _ (TFValue.beqv_spec a b)

/-- The value's type descriptor, modelling `v.Type()` (`none` is Go nil). -/
def TFValue.typeOf : TFValue → Option TFType
  | .unknown t => t
  | .null t => t
  | .str t _ => t
  | .coll t _ => t
  | .mapv t _ => t

/-- Modelling `v.IsKnown()`: false exactly when the value itself is
unknown; a collection with unknown children is still known. -/
def TFValue.isKnown : TFValue → Bool
  | .unknown _ => false
  | _ => true

/-- Modelling `v.IsNull()`. -/
def TFValue.isNull : TFValue → Bool
  | .null _ => true
  | _ => false

mutual
/-- Modelling `v.IsFullyKnown()`: known, and recursively every nested
child is fully known. -/
def TFValue.isFullyKnown : TFValue → Bool
  | .unknown _ => false
  | .null _ => true
  | .str _ _ => true
  | .coll _ es => TFValue.allFullyKnown es
  | .mapv _ es => TFValue.entriesFullyKnown es

def TFValue.allFullyKnown : List TFValue → Bool
  | [] => true
  | c :: cs => TFValue.isFullyKnown c && TFValue.allFullyKnown cs

def TFValue.entriesFullyKnown : List (String × TFValue) → Bool
  | [] => true
  | e :: es => TFValue.isFullyKnown e.2 && TFValue.entriesFullyKnown es
end

mutual
/-- Modelled from the spec: the wire collaborator's value rendering
(`tftypes.Value.String()`), used where the Go code formats a value into a
diagnostic or error message. -/
def TFValue.render : TFValue → String
  | .unknown _ => "unknown"
  | .null _ => "null"
  | .str _ s => "tftypes.String<\"" ++ s ++ "\">"
  | .coll _ es => "tftypes.Collection<" ++ TFValue.renderList es ++ ">"
  | .mapv _ es => "tftypes.Map<" ++ TFValue.renderEntries es ++ ">"

def TFValue.renderList : List TFValue → String
  | [] => ""
  | [c] => TFValue.render c
  | c :: cs => TFValue.render c ++ ", " ++ TFValue.renderList cs

def TFValue.renderEntries : List (String × TFValue) → String
  | [] => ""
  | e :: es => "\"" ++ e.1 ++ "\":" ++ TFValue.render e.2 ++ ", " ++ TFValue.renderEntries es
end

/-- Modelling `in.As(&val)` for `val : []tftypes.Value`: succeeds exactly
on sequence-shaped content (the hard decode of a list or set). -/
def TFValue.asColl : TFValue → Option (List TFValue)
  | .coll _ es => some es
  | _ => none

/-- Modelling `in.As(&val)` for `val : map[string]tftypes.Value`. -/
def TFValue.asEntries : TFValue → Option (List (String × TFValue))
  | .mapv _ es => some es
  | _ => none

/-- Framework attribute types: the closed family formed by the element
types this layer is used with.  `stringT` models the scalar string type
(out of the provided sources, referenced as the element-type contract);
`listT`, `mapT` and `setT` model `ListType`, `MapType` and `SetType`,
whose `ElemType` field may be Go nil (`none`). -/
inductive AttrTy : Type where
  | stringT : AttrTy
  | listT (elem : Option AttrTy) : AttrTy
  | mapT (elem : Option AttrTy) : AttrTy
  | setT (elem : Option AttrTy) : AttrTy

mutual
/-- Structural equality of attribute types (Go `==` on the underlying
struct values, used here only to build decidable equality; the
framework-level `Equal` methods are modelled separately below). -/
def AttrTy.beq : AttrTy → AttrTy → Bool
  | .stringT, .stringT => true
  | .listT a, .listT b => AttrTy.beqOpt a b
  | .mapT a, .mapT b => AttrTy.beqOpt a b
  | .setT a, .setT b => AttrTy.beqOpt a b
  | _, _ => false

def AttrTy.beqOpt : Option AttrTy → Option AttrTy → Bool
  | none, none => true
  | some a, some b => AttrTy.beq a b
  | _, _ => false
end

mutual
theorem AttrTy.beqt_spec : ∀ (a b : AttrTy), AttrTy.beq a b = true ↔ a = b
  | .stringT, .stringT => by simp [AttrTy.beq]
  | .stringT, .listT _ => by simp [AttrTy.beq]
  | .stringT, .mapT _ => by simp [AttrTy.beq]
  | .stringT, .setT _ => by simp [AttrTy.beq]
  | .listT _, .stringT => by simp [AttrTy.beq]
  | .listT a, .listT b => by simp [AttrTy.beq, AttrTy.beqtOpt_spec a b]
  | .listT _, .mapT _ => by simp [AttrTy.beq]
  | .listT _, .setT _ => by simp [AttrTy.beq]
  | .mapT _, .stringT => by simp [AttrTy.beq]
  | .mapT _, .listT _ => by simp [AttrTy.beq]
  | .mapT a, .mapT b => by simp [AttrTy.beq, AttrTy.beqtOpt_spec a b]
  | .mapT _, .setT _ => by simp [AttrTy.beq]
  | .setT _, .stringT => by simp [AttrTy.beq]
  | .setT _, .listT _ => by simp [AttrTy.beq]
  | .setT _, .mapT _ => by simp [AttrTy.beq]
  | .setT a, .setT b => by simp [AttrTy.beq, AttrTy.beqtOpt_spec a b]

theorem AttrTy.beqtOpt_spec : ∀ (a b : Option AttrTy), AttrTy.beqOpt a b = true ↔ a = b
  | none, none => by simp [AttrTy.beqOpt]
  | none, some _ => by simp [AttrTy.beqOpt]
  | some _, none => by simp [AttrTy.beqOpt]
  | some a, some b => by simp [AttrTy.beqOpt, AttrTy.beqt_spec a b]
end

instance : DecidableEq AttrTy := fun a b =>
  decidable_of_iff _ (AttrTy.beqt_spec a b)

/-- Modelling the `Equal` methods of the concrete types: for collection
types (`list_type.go`, `map_type.go`, `set_type.go`) a nil `ElemType`
compares unequal to everything, the other type must be of the same shape,
and otherwise the element types are compared recursively; the scalar
string type equals exactly itself.  The second argument is an
`attr.Type` interface value, which may be Go nil (`none`). -/
def AttrTy.equal : AttrTy → Option AttrTy → Bool
  | .stringT, some .stringT => true
  | .stringT, _ => false
  | .listT none, _ => false
  | .listT (some e), some (.listT oe) => AttrTy.equal e oe
  | .listT (some _), _ => false
  | .mapT none, _ => false
  | .mapT (some e), some (.mapT oe) => AttrTy.equal e oe
  | .mapT (some _), _ => false
  | .setT none, _ => false
  | .setT (some e), some (.setT oe) => AttrTy.equal e oe
  | .setT (some _), _ => false

/-- Modelling `TerraformType`: the wire type of the attribute type.
Returns `none` where the Go code would dereference a nil `ElemType` and
panic. -/
def AttrTy.terraformType : AttrTy → Option TFType
  | .stringT => some TFType.string
  | .listT none => none
  | .listT (some e) => (AttrTy.terraformType e).map TFType.list
  | .mapT none => none
  | .mapT (some e) => (AttrTy.terraformType e).map TFType.map
  | .setT none => none
  | .setT (some e) => (AttrTy.terraformType e).map TFType.set

/-- Modelling the `String()` methods: `"types.ListType[" + ElemType.String() + "]"`
and analogously for map and set (`list_type.go:114`, `map_type.go:117`,
`set_type.go:117`).  The scalar string name is modelled from the spec's
element-name example.  Returns `none` where Go would panic on a nil
`ElemType`. -/
def AttrTy.typeString : AttrTy → Option String
  | .stringT => some "StringType"
  | .listT none => none
  | .listT (some e) => (AttrTy.typeString e).map (fun s => "types.ListType[" ++ s ++ "]")
  | .mapT none => none
  | .mapT (some e) => (AttrTy.typeString e).map (fun s => "types.MapType[" ++ s ++ "]")
  | .setT none => none
  | .setT (some e) => (AttrTy.typeString e).map (fun s => "types.SetType[" ++ s ++ "]")

/-- Which element types satisfy `xattr.TypeWithValidate`: the three
collection types declare conformance in the sources; the scalar string
type does not implement `Validate`. -/
def AttrTy.isValidatableTy : AttrTy → Bool
  | .stringT => false
  | .listT _ => true
  | .mapT _ => true
  | .setT _ => true

/-- The tri-state of a framework value (`attr.ValueState`). -/
inductive ValueState : Type where
  | known : ValueState
  | null : ValueState
  | unknown : ValueState
deriving DecidableEq

/-- Framework attribute values: `StringValue`, `ListValue`, `MapValue`
and `SetValue`.  Collection values carry their element type, a tri-state,
and (when known) their elements; the null/unknown constructors in the
sources leave the element storage empty. -/
inductive AttrValue : Type where
  | strV (state : ValueState) (value : String) : AttrValue
  | listV (elementType : Option AttrTy) (state : ValueState) (elements : List AttrValue) : AttrValue
  | mapV (elementType : Option AttrTy) (state : ValueState) (entries : List (String × AttrValue)) : AttrValue
  | setV (elementType : Option AttrTy) (state : ValueState) (elements : List AttrValue) : AttrValue

mutual
/-- Structural equality of attribute values (used to build decidable
equality for diagnostic records). -/
def AttrValue.beq : AttrValue → AttrValue → Bool
  | .strV st1 v1, .strV st2 v2 => st1 == st2 && v1 == v2
  | .listV e1 st1 es1, .listV e2 st2 es2 =>
      e1 == e2 && st1 == st2 && AttrValue.beqList es1 es2
  | .mapV e1 st1 es1, .mapV e2 st2 es2 =>
      e1 == e2 && st1 == st2 && AttrValue.beqEntries es1 es2
  | .setV e1 st1 es1, .setV e2 st2 es2 =>
      e1 == e2 && st1 == st2 && AttrValue.beqList es1 es2
  | _, _ => false

def AttrValue.beqList : List AttrValue → List AttrValue → Bool
  | [], [] => true
  | c :: cs, d :: ds => AttrValue.beq c d && AttrValue.beqList cs ds
  | _, _ => false

def AttrValue.beqEntries : List (String × AttrValue) → List (String × AttrValue) → Bool
  | [], [] => true
  | e :: es, f :: fs => e.1 == f.1 && AttrValue.beq e.2 f.2 && AttrValue.beqEntries es fs
  | _, _ => false
end

mutual
theorem AttrValue.beqa_spec : ∀ (a b : AttrValue), AttrValue.beq a b = true ↔ a = b
  | .strV st1 v1, .strV st2 v2 => by simp [AttrValue.beq]
  | .strV _ _, .listV _ _ _ => by simp [AttrValue.beq]
  | .strV _ _, .mapV _ _ _ => by simp [AttrValue.beq]
  | .strV _ _, .setV _ _ _ => by simp [AttrValue.beq]
  | .listV _ _ _, .strV _ _ => by simp [AttrValue.beq]
  | .listV e1 st1 es1, .listV e2 st2 es2 => by
      simp [AttrValue.beq, AttrValue.beqaList_spec es1 es2, and_assoc]
  | .listV _ _ _, .mapV _ _ _ => by simp [AttrValue.beq]
  | .listV _ _ _, .setV _ _ _ => by simp [AttrValue.beq]
  | .mapV _ _ _, .strV _ _ => by simp [AttrValue.beq]
  | .mapV _ _ _, .listV _ _ _ => by simp [AttrValue.beq]
  | .mapV e1 st1 es1, .mapV e2 st2 es2 => by
      simp [AttrValue.beq, AttrValue.beqaEntries_spec es1 es2, and_assoc]
  | .mapV _ _ _, .setV _ _ _ => by simp [AttrValue.beq]
  | .setV _ _ _, .strV _ _ => by simp [AttrValue.beq]
  | .setV _ _ _, .listV _ _ _ => by simp [AttrValue.beq]
  | .setV _ _ _, .mapV _ _ _ => by simp [AttrValue.beq]
  | .setV e1 st1 es1, .setV e2 st2 es2 => by
      simp [AttrValue.beq, AttrValue.beqaList_spec es1 es2, and_assoc]

theorem AttrValue.beqaList_spec : ∀ (a b : List AttrValue), AttrValue.beqList a b = true ↔ a = b
  | [], [] => by simp [AttrValue.beqList]
  | [], _ :: _ => by simp [AttrValue.beqList]
  | _ :: _, [] => by simp [AttrValue.beqList]
  | c :: cs, d :: ds => by
      simp [AttrValue.beqList, AttrValue.beqa_spec c d, AttrValue.beqaList_spec cs ds]

theorem AttrValue.beqaEntries_spec :
    ∀ (a b : List (String × AttrValue)), AttrValue.beqEntries a b = true ↔ a = b
  | [], [] => by simp [AttrValue.beqEntries]
  | [], _ :: _ => by simp [AttrValue.beqEntries]
  | _ :: _, [] => by simp [AttrValue.beqEntries]
  | e :: es, f :: fs => by
      rw [show (e :: es = f :: fs) ↔ (e = f ∧ es = fs) by simp]
      rw [show (e = f) ↔ (e.1 = f.1 ∧ e.2 = f.2) from Prod.ext_iff]
      simp [AttrValue.beqEntries, AttrValue.beqa_spec e.2 f.2, AttrValue.beqaEntries_spec es fs,
        and_assoc]
end

instance : DecidableEq AttrValue := fun a b =>
  decidable_of_iff _ (AttrValue.beqa_spec a b)

/-- One step of a framework attribute path (package `path`): an attribute
name, a list index (`AtListIndex`), a map key (`AtMapKey`) or a set
element value (`AtSetValue`, carrying the converted `attr.Value`). -/
inductive FwPathStep : Type where
  | attributeName (name : String) : FwPathStep
  | elementKeyInt (index : Nat) : FwPathStep
  | elementKeyString (key : String) : FwPathStep
  | elementKeyValue (value : AttrValue) : FwPathStep
deriving DecidableEq

/-- A framework attribute path: the sequence of its steps. -/
abbrev Path : Type := List FwPathStep

/-- Modelling `path.AtListIndex(index)`. -/
def Path.atListIndex (p : Path) (index : Nat) : Path :=
  p ++ [FwPathStep.elementKeyInt index]

/-- Modelling `path.AtMapKey(key)`. -/
def Path.atMapKey (p : Path) (key : String) : Path :=
  p ++ [FwPathStep.elementKeyString key]

/-- Modelling `path.AtSetValue(value)`. -/
def Path.atSetValue (p : Path) (value : AttrValue) : Path :=
  p ++ [FwPathStep.elementKeyValue value]

/-- One structured diagnostic record: `AddAttributeError` produces a
record with a path, `AddError` one without; both carry a summary and a
detail text. -/
structure Diagnostic : Type where
  path : Option Path
  summary : String
  detail : String
deriving DecidableEq

/-- A `tftypes.AttributePathStep`, the wire-level path step family used
by `ApplyTerraform5AttributePathStep`. -/
inductive TFAttributePathStep : Type where
  | attributeName (name : String) : TFAttributePathStep
  | elementKeyString (key : String) : TFAttributePathStep
  | elementKeyInt (index : Int) : TFAttributePathStep
  | elementKeyValue (value : TFValue) : TFAttributePathStep
deriving DecidableEq

/-- The Go dynamic type name of a step (`%T` in the error messages). -/
def TFAttributePathStep.goTypeName : TFAttributePathStep → String
  | .attributeName _ => "tftypes.AttributeName"
  | .elementKeyString _ => "tftypes.ElementKeyString"
  | .elementKeyInt _ => "tftypes.ElementKeyInt"
  | .elementKeyValue _ => "tftypes.ElementKeyValue"

/-- `ListType.ApplyTerraform5AttributePathStep` (`list_type.go:105`):
only an integer-index step is accepted, and the element type is returned
for any index. -/
def listApplyStep (elemType : Option AttrTy) (step : TFAttributePathStep) :
    Except String (Option AttrTy) :=
  match step with
  | .elementKeyInt _ => Except.ok elemType
  | _ => Except.error ("cannot apply step " ++ step.goTypeName ++ " to ListType")

/-- `MapType.ApplyTerraform5AttributePathStep` (`map_type.go:108`): only
a string-key step is accepted. -/
def mapApplyStep (elemType : Option AttrTy) (step : TFAttributePathStep) :
    Except String (Option AttrTy) :=
  match step with
  | .elementKeyString _ => Except.ok elemType
  | _ => Except.error ("cannot apply step " ++ step.goTypeName ++ " to MapType")

/-- `SetType.ApplyTerraform5AttributePathStep` (`set_type.go:108`): only
an element-value step is accepted. -/
def setApplyStep (elemType : Option AttrTy) (step : TFAttributePathStep) :
    Except String (Option AttrTy) :=
  match step with
  | .elementKeyValue _ => Except.ok elemType
  | _ => Except.error ("cannot apply step " ++ step.goTypeName ++ " to SetType")

/-- Modelled from the spec: scalar string element conversion (the scalar
type implementations are outside the provided sources; this follows the
spec's element conversion protocol: absent type yields null, a type
mismatch fails, an undetermined value yields unknown, a determined null
yields null, and otherwise the payload is decoded). -/
def stringValueFromTerraform (v : TFValue) : Except String AttrValue :=
  match v.typeOf with
  | none => Except.ok (AttrValue.strV ValueState.null "")
  | some vt =>
    if vt ≠ TFType.string then
      Except.error ("can't use " ++ v.render ++ " as value of String, can only use tftypes.String values")
    else if ¬ v.isKnown then Except.ok (AttrValue.strV ValueState.unknown "")
    else if v.isNull then Except.ok (AttrValue.strV ValueState.null "")
    else
      match v with
      | TFValue.str _ s => Except.ok (AttrValue.strV ValueState.known s)
      | _ => Except.error "unexpected decode error: value is not a string"

/-- The element-by-element conversion loop shared by the collection
`ValueFromTerraform` implementations: convert each child in order with
the element conversion, aborting on the first error. -/
def convertAll (conv : TFValue → Except String AttrValue) :
    List TFValue → Except String (List AttrValue)
  | [] => Except.ok []
  | c :: cs =>
    match conv c with
    | Except.error e => Except.error e
    | Except.ok a =>
      match convertAll conv cs with
      | Except.error e => Except.error e
      | Except.ok rest => Except.ok (a :: rest)

/-- The keyed conversion loop of `MapType.ValueFromTerraform`: convert
each entry's value, keeping every key, aborting on the first error. -/
def convertAllEntries (conv : TFValue → Except String AttrValue) :
    List (String × TFValue) → Except String (List (String × AttrValue))
  | [] => Except.ok []
  | e :: es =>
    match conv e.2 with
    | Except.error err => Except.error err
    | Except.ok a =>
      match convertAllEntries conv es with
      | Except.error err => Except.error err
      | Except.ok rest => Except.ok ((e.1, a) :: rest)

/-- `ListType.ValueFromTerraform` (`list_type.go:60`–`89`), with the
recursive element conversion passed in: absent wire type yields a null
value; a wire type unequal to the list wire type is a conversion error;
an unknown value yields an unknown value; a null value yields a null
value; otherwise the ordered children are decoded and converted in
order, aborting on the first element error.  `none` from
`AttrTy.terraformType` models the Go panic on a nil element type. -/
def listConvertCore (et : AttrTy) (conv : TFValue → Except String AttrValue)
    (v : TFValue) : Except String AttrValue :=
  match v.typeOf with
  | none => Except.ok (AttrValue.listV (some et) ValueState.null [])
  | some vt =>
    match et.terraformType with
    | none => Except.error "panic: nil element type"
    | some ett =>
      if vt ≠ TFType.list ett then
        Except.error ("can't use " ++ v.render ++ " as value of List with ElementType, can only use " ++ ett.render ++ " values")
      else if ¬ v.isKnown then Except.ok (AttrValue.listV (some et) ValueState.unknown [])
      else if v.isNull then Except.ok (AttrValue.listV (some et) ValueState.null [])
      else
        match v.asColl with
        | none => Except.error "unexpected decode error: value is not a collection"
        | some children =>
          (convertAll conv children).map
            (fun elems => AttrValue.listV (some et) ValueState.known elems)

/-- `SetType.ValueFromTerraform` (`set_type.go:63`–`92`): same structure
as the list conversion, against the set wire type. -/
def setConvertCore (et : AttrTy) (conv : TFValue → Except String AttrValue)
    (v : TFValue) : Except String AttrValue :=
  match v.typeOf with
  | none => Except.ok (AttrValue.setV (some et) ValueState.null [])
  | some vt =>
    match et.terraformType with
    | none => Except.error "panic: nil element type"
    | some ett =>
      if vt ≠ TFType.set ett then
        Except.error ("can't use " ++ v.render ++ " as value of Set with ElementType, can only use " ++ ett.render ++ " values")
      else if ¬ v.isKnown then Except.ok (AttrValue.setV (some et) ValueState.unknown [])
      else if v.isNull then Except.ok (AttrValue.setV (some et) ValueState.null [])
      else
        match v.asColl with
        | none => Except.error "unexpected decode error: value is not a collection"
        | some children =>
          (convertAll conv children).map
            (fun elems => AttrValue.setV (some et) ValueState.known elems)

/-- `MapType.ValueFromTerraform` (`map_type.go:60`–`92`): absent wire
type yields null; a non-map-shaped wire type fails with the map-value
error; a map wire type with the wrong element type fails with the
element-type error; unknown and null map as for lists; otherwise every
keyed entry is converted, keeping every key. -/
def mapConvertCore (et : AttrTy) (conv : TFValue → Except String AttrValue)
    (v : TFValue) : Except String AttrValue :=
  match v.typeOf with
  | none => Except.ok (AttrValue.mapV (some et) ValueState.null [])
  | some vt =>
    if ¬ vt.isMap then
      Except.error ("can't use " ++ v.render ++ " as value of MapValue, can only use tftypes.Map values")
    else
      match et.terraformType with
      | none => Except.error "panic: nil element type"
      | some ett =>
        if vt ≠ TFType.map ett then
          Except.error ("can't use " ++ v.render ++ " as value of Map with ElementType, can only use " ++ ett.render ++ " values")
        else if ¬ v.isKnown then Except.ok (AttrValue.mapV (some et) ValueState.unknown [])
        else if v.isNull then Except.ok (AttrValue.mapV (some et) ValueState.null [])
        else
          match v.asEntries with
          | none => Except.error "unexpected decode error: value is not a map"
          | some entries =>
            (convertAllEntries conv entries).map
              (fun elems => AttrValue.mapV (some et) ValueState.known elems)

/-- `ValueFromTerraform`, dispatched over the closed family of attribute
types.  A collection type with a nil element type would panic in Go when
computing its wire type; that unreachable-for-the-claims case is modelled
as an error. -/
def valueFromTerraform : AttrTy → TFValue → Except String AttrValue
  | AttrTy.stringT, v => stringValueFromTerraform v
  | AttrTy.listT none, _ => Except.error "panic: nil element type"
  | AttrTy.listT (some e), v => listConvertCore e (fun c => valueFromTerraform e c) v
  | AttrTy.mapT none, _ => Except.error "panic: nil element type"
  | AttrTy.mapT (some e), v => mapConvertCore e (fun c => valueFromTerraform e c) v
  | AttrTy.setT none, _ => Except.error "panic: nil element type"
  | AttrTy.setT (some e), v => setConvertCore e (fun c => valueFromTerraform e c) v

/-- The boilerplate detail text wrapped around internal validation
errors by `AddAttributeError` in the three `Validate` methods. -/
def internalErrDetail (err : String) : String :=
  "An unexpected error was encountered trying to validate an attribute value. This is always an error in the provider. Please report the following to the provider developer:\n\n" ++ err

/-- The shape-mismatch error text `expected ... value, received %T with value: %v`. -/
def shapeErrMsg (shape : String) (v : TFValue) : String :=
  "expected " ++ shape ++ " value, received tftypes.Value with value: " ++ v.render

/-- Modelled from the spec: the decode-failure error text produced by the
wire collaborator's `As`; the sources only pass it through. -/
def decodeErrMsg : String :=
  "unexpected error: could not decode the collection value"

/-- The element loop of `ListType.Validate` (`list_type.go:157`–`162`):
each fully known child is validated by the element type at the list-index
path; children that are not fully known are skipped. -/
def listValidateLoop (ev : TFValue → Path → List Diagnostic)
    (elems : List TFValue) (p : Path) (index : Nat) : List Diagnostic :=
  match elems with
  | [] => []
  | c :: cs =>
    (if c.isFullyKnown then ev c (p.atListIndex index) else []) ++
      listValidateLoop ev cs p (index + 1)

/-- `ListType.Validate` (`list_type.go:120`–`165`), with the element
validator passed in (`none` when the element type does not implement
`xattr.TypeWithValidate`). -/
def listValidateCore (ev : Option (TFValue → Path → List Diagnostic))
    (v : TFValue) (p : Path) : List Diagnostic :=
  match v.typeOf with
  | none => []
  | some vt =>
    if ¬ vt.isList then
      [⟨some p, "List Type Validation Error", internalErrDetail (shapeErrMsg "List" v)⟩]
    else if ¬ v.isKnown ∨ v.isNull then []
    else
      match v.asColl with
      | none => [⟨some p, "List Type Validation Error", internalErrDetail decodeErrMsg⟩]
      | some elems =>
        match ev with
        | none => []
        | some ev => listValidateLoop ev elems p 0

/-- The entry loop of `MapType.Validate` (`map_type.go:160`–`165`): each
fully known entry value is validated at the map-key path. -/
def mapValidateLoop (ev : TFValue → Path → List Diagnostic)
    (entries : List (String × TFValue)) (p : Path) : List Diagnostic :=
  match entries with
  | [] => []
  | e :: es =>
    (if e.2.isFullyKnown then ev e.2 (p.atMapKey e.1) else []) ++
      mapValidateLoop ev es p

/-- `MapType.Validate` (`map_type.go:123`–`168`). -/
def mapValidateCore (ev : Option (TFValue → Path → List Diagnostic))
    (v : TFValue) (p : Path) : List Diagnostic :=
  match v.typeOf with
  | none => []
  | some vt =>
    if ¬ vt.isMap then
      [⟨some p, "Map Type Validation Error", internalErrDetail (shapeErrMsg "Map" v)⟩]
    else if ¬ v.isKnown ∨ v.isNull then []
    else
      match v.asEntries with
      | none => [⟨some p, "Map Type Validation Error", internalErrDetail decodeErrMsg⟩]
      | some entries =>
        match ev with
        | none => []
        | some ev => mapValidateLoop ev entries p

/-- The duplicate-element diagnostic of `SetType.Validate`
(`set_type.go:190`–`194`): recorded at the path the set itself was
validated at, naming the later of the two equal children. -/
def dupDiag (p : Path) (elemInner : TFValue) : Diagnostic :=
  ⟨some p, "Duplicate Set Element",
    "This attribute contains duplicate values of: " ++ elemInner.render⟩

/-- The inner scan of `SetType.Validate` (`set_type.go:181`–`195`): each
later child equal to the current child produces one duplicate-element
diagnostic. -/
def setDupScan (elemOuter : TFValue) : List TFValue → Path → List Diagnostic
  | [], _ => []
  | elemInner :: rest, p =>
    (if elemInner = elemOuter then [dupDiag p elemInner] else []) ++
      setDupScan elemOuter rest p

/-- The outer loop of `SetType.Validate` (`set_type.go:160`–`196`), with
the element validator and element conversion passed together (`none`
when the element type does not implement `xattr.TypeWithValidate`).
Children that are not fully known are skipped entirely.  For a fully
known child with a validatable element type, the child is first
converted; a conversion failure adds one internal error and returns
immediately, aborting the remaining checks.  Otherwise the child is
validated at the set-value path of its converted form, and then the
later children are scanned for duplicates. -/
def setValidateLoop
    (info : Option ((TFValue → Path → List Diagnostic) × (TFValue → Except String AttrValue)))
    (elems : List TFValue) (p : Path) : List Diagnostic :=
  match elems with
  | [] => []
  | elemOuter :: rest =>
    if ¬ elemOuter.isFullyKnown then setValidateLoop info rest p
    else
      match info with
      | some (ev, conv) =>
        match conv elemOuter with
        | Except.error err =>
          [⟨some p, "Set Type Validation Error", internalErrDetail err⟩]
        | Except.ok elemValue =>
          ev elemOuter (p.atSetValue elemValue) ++ setDupScan elemOuter rest p ++
            setValidateLoop info rest p
      | none => setDupScan elemOuter rest p ++ setValidateLoop info rest p

/-- `SetType.Validate` (`set_type.go:123`–`199`). -/
def setValidateCore
    (info : Option ((TFValue → Path → List Diagnostic) × (TFValue → Except String AttrValue)))
    (v : TFValue) (p : Path) : List Diagnostic :=
  match v.typeOf with
  | none => []
  | some vt =>
    if ¬ vt.isSet then
      [⟨some p, "Set Type Validation Error", internalErrDetail (shapeErrMsg "Set" v)⟩]
    else if ¬ v.isKnown ∨ v.isNull then []
    else
      match v.asColl with
      | none => [⟨some p, "Set Type Validation Error", internalErrDetail decodeErrMsg⟩]
      | some elems => setValidateLoop info elems p

/-- `Validate`, dispatched over the closed family: collection element
types implement `xattr.TypeWithValidate` and are validated recursively;
the scalar string type does not (its own `Validate` is never reached
behind the capability probe and contributes no diagnostics). -/
def validate : AttrTy → TFValue → Path → List Diagnostic
  | AttrTy.stringT, _, _ => []
  | AttrTy.listT none, v, p => listValidateCore none v p
  | AttrTy.listT (some e), v, p =>
    listValidateCore
      (if e.isValidatableTy then some (fun c q => validate e c q) else none) v p
  | AttrTy.mapT none, v, p => mapValidateCore none v p
  | AttrTy.mapT (some e), v, p =>
    mapValidateCore
      (if e.isValidatableTy then some (fun c q => validate e c q) else none) v p
  | AttrTy.setT none, v, p => setValidateCore none v p
  | AttrTy.setT (some e), v, p =>
    setValidateCore
      (if e.isValidatableTy then
        some ((fun c q => validate e c q), (fun c => valueFromTerraform e c))
      else none) v p

/-- Modelled from the spec: the protocol-level plan request
(`tfprotov5.PlanResourceChangeRequest`), an external collaborator.  Only
the fields read by `PlanResourceChangeRequest` are modelled; the dynamic
values are kept abstract. -/
structure Proto5PlanRequest (DV : Type) : Type where
  config : Option DV
  priorState : Option DV
  proposedNewState : Option DV
  providerMeta : Option DV
  priorPrivate : List UInt8

/-- Modelled from the spec: the framework-level plan request
(`fwserver.PlanResourceChangeRequest`) assembled by the conversion, with
the converted payloads kept abstract. -/
structure FwPlanRequest (Cfg St Pl Meta Sch RT : Type) : Type where
  config : Option Cfg
  priorPrivate : List UInt8
  priorState : Option St
  proposedNewState : Option Pl
  providerMeta : Option Meta
  resourceSchema : Sch
  resourceType : RT

/-- `PlanResourceChangeRequest` (`internal/fromproto5/planresourcechange.go:14`–`65`).
The helper conversions `Config`, `State`, `Plan` and `ProviderMeta` are
outside the provided sources and are taken as opaque function
parameters; a nil protocol request returns a nil framework request and
nil diagnostics before any of them, or any schema argument, is used. -/
def planResourceChangeRequest {DV Cfg St Pl Meta Sch RT : Type}
    (proto5 : Option (Proto5PlanRequest DV)) (resourceType : RT)
    (resourceSchema : Option Sch) (providerMetaSchema : Option Sch)
    (convConfig : Option DV → Option Sch → Option Cfg × List Diagnostic)
    (convState : Option DV → Option Sch → Option St × List Diagnostic)
    (convPlan : Option DV → Option Sch → Option Pl × List Diagnostic)
    (convProviderMeta : Option DV → Option Sch → Option Meta × List Diagnostic) :
    Option (FwPlanRequest Cfg St Pl Meta Sch RT) × List Diagnostic :=
  match proto5 with
  | none => (none, [])
  | some req =>
    match resourceSchema with
    | none =>
      (none,
        [⟨none, "Missing Resource Schema",
          "An unexpected error was encountered when handling the request. This is always an issue in the Terraform Provider SDK used to implement the provider and should be reported to the provider developers.\n\nPlease report this to the provider developer:\n\nMissing schema."⟩])
    | some rs =>
      let config := convConfig req.config resourceSchema
      let priorState := convState req.priorState resourceSchema
      let proposedNewState := convPlan req.proposedNewState resourceSchema
      let providerMeta := convProviderMeta req.providerMeta providerMetaSchema
      (some
        { config := config.1
          priorPrivate := req.priorPrivate
          priorState := priorState.1
          proposedNewState := proposedNewState.1
          providerMeta := providerMeta.1
          resourceSchema := rs
          resourceType := resourceType },
        config.2 ++ priorState.2 ++ proposedNewState.2 ++ providerMeta.2)

/-- Shape test on an `attr.Type` interface value: is it a `ListType`? -/
def isListShape : Option AttrTy → Bool
  | some (AttrTy.listT _) => true
  | _ => false

/-- Shape test on an `attr.Type` interface value: is it a `MapType`? -/
def isMapShape : Option AttrTy → Bool
  | some (AttrTy.mapT _) => true
  | _ => false

/-- Shape test on an `attr.Type` interface value: is it a `SetType`? -/
def isSetShape : Option AttrTy → Bool
  | some (AttrTy.setT _) => true
  | _ => false

/-- The number of unordered pairs of positions holding the value `v`:
for each position, the occurrences of `v` among the later elements,
summed.  Equals `k * (k - 1) / 2` when `v` occurs `k` times. -/
def dupPairCount (v : TFValue) : List TFValue → Nat
  | [] => 0
  | c :: rest =>
    (if c = v then rest.countP (fun c' => decide (c' = v)) else 0) + dupPairCount v rest

/-- A sample known string wire value, used in concrete instantiations. -/
def wireStr (s : String) : TFValue :=
  TFValue.str (some TFType.string) s

/-! ## Theorems -/

/-- Claim C4: for each shape (List, Map, Set) and all element types E1,
E2 with E1 non-nil, `Shape{E1}.Equal(Shape{E2})` holds iff `E1.Equal(E2)`
holds and the other type is of the same shape; a collection type whose
element type is nil equals nothing, including itself. -/
theorem claim_C4 : ∀ (e1 : AttrTy) (e2 : Option AttrTy),
    (AttrTy.equal (AttrTy.listT (some e1)) (some (AttrTy.listT e2)) = AttrTy.equal e1 e2) ∧
    (AttrTy.equal (AttrTy.mapT (some e1)) (some (AttrTy.mapT e2)) = AttrTy.equal e1 e2) ∧
    (AttrTy.equal (AttrTy.setT (some e1)) (some (AttrTy.setT e2)) = AttrTy.equal e1 e2) ∧
    (∀ o : Option AttrTy, isListShape o = false →
      AttrTy.equal (AttrTy.listT (some e1)) o = false) ∧
    (∀ o : Option AttrTy, isMapShape o = false →
      AttrTy.equal (AttrTy.mapT (some e1)) o = false) ∧
    (∀ o : Option AttrTy, isSetShape o = false →
      AttrTy.equal (AttrTy.setT (some e1)) o = false) ∧
    (∀ o : Option AttrTy,
      AttrTy.equal (AttrTy.listT none) o = false ∧
      AttrTy.equal (AttrTy.mapT none) o = false ∧
      AttrTy.equal (AttrTy.setT none) o = false) := by
  intro e1 e2
  refine ⟨rfl, rfl, rfl, ?_, ?_, ?_, ?_⟩
  · intro o ho
    cases o with
    | none => rfl
    | some t => cases t <;> simp_all [AttrTy.equal, isListShape]
  · intro o ho
    cases o with
    | none => rfl
    | some t => cases t <;> simp_all [AttrTy.equal, isMapShape]
  · intro o ho
    cases o with
    | none => rfl
    | some t => cases t <;> simp_all [AttrTy.equal, isSetShape]
  · intro o
    refine ⟨?_, ?_, ?_⟩ <;>
      (cases o with
       | none => rfl
       | some t => cases t <;> rfl)

/-- Witness for C4 at concrete inputs: a list of strings equals a list
of strings, and equals neither a set of strings nor a nil-element list,
and a nil-element list does not equal itself. -/
theorem claim_C4_witness :
    AttrTy.equal (AttrTy.listT (some AttrTy.stringT)) (some (AttrTy.listT (some AttrTy.stringT))) = true ∧
    AttrTy.equal (AttrTy.listT (some AttrTy.stringT)) (some (AttrTy.setT (some AttrTy.stringT))) = false ∧
    AttrTy.equal (AttrTy.listT none) (some (AttrTy.listT none)) = false := by
  have h := claim_C4 AttrTy.stringT (some AttrTy.stringT)
  refine ⟨?_, ?_, ?_⟩
  · rw [h.1]; rfl
  · exact h.2.2.2.1 (some (AttrTy.setT (some AttrTy.stringT))) (by rfl)
  · exact (h.2.2.2.2.2.2 (some (AttrTy.listT none))).1

/-- Claim C6: the list path-step application returns the element type
for any integer-index step and an error for every other step kind; the
map application accepts only string-key steps; the set application
accepts only element-value steps. -/
theorem claim_C6 : ∀ (e : Option AttrTy),
    (∀ i : Int, listApplyStep e (TFAttributePathStep.elementKeyInt i) = Except.ok e) ∧
    (∀ step : TFAttributePathStep,
      (∀ i : Int, step ≠ TFAttributePathStep.elementKeyInt i) →
      ∃ msg, listApplyStep e step = Except.error msg) ∧
    (∀ s : String, mapApplyStep e (TFAttributePathStep.elementKeyString s) = Except.ok e) ∧
    (∀ step : TFAttributePathStep,
      (∀ s : String, step ≠ TFAttributePathStep.elementKeyString s) →
      ∃ msg, mapApplyStep e step = Except.error msg) ∧
    (∀ v : TFValue, setApplyStep e (TFAttributePathStep.elementKeyValue v) = Except.ok e) ∧
    (∀ step : TFAttributePathStep,
      (∀ v : TFValue, step ≠ TFAttributePathStep.elementKeyValue v) →
      ∃ msg, setApplyStep e step = Except.error msg) := by
  intro e
  refine ⟨fun _ => rfl, ?_, fun _ => rfl, ?_, fun _ => rfl, ?_⟩
  · intro step h
    cases step with
    | elementKeyInt i => exact absurd rfl (h i)
    | attributeName n => exact ⟨_, rfl⟩
    | elementKeyString s => exact ⟨_, rfl⟩
    | elementKeyValue v => exact ⟨_, rfl⟩
  · intro step h
    cases step with
    | elementKeyString s => exact absurd rfl (h s)
    | attributeName n => exact ⟨_, rfl⟩
    | elementKeyInt i => exact ⟨_, rfl⟩
    | elementKeyValue v => exact ⟨_, rfl⟩
  · intro step h
    cases step with
    | elementKeyValue v => exact absurd rfl (h v)
    | attributeName n => exact ⟨_, rfl⟩
    | elementKeyString s => exact ⟨_, rfl⟩
    | elementKeyInt i => exact ⟨_, rfl⟩

/-- Witness for C6 at concrete inputs: index 3 on a list of strings
yields the element type; a string-key step on the same list errors. -/
theorem claim_C6_witness :
    listApplyStep (some AttrTy.stringT) (TFAttributePathStep.elementKeyInt 3) =
      Except.ok (some AttrTy.stringT) ∧
    ∃ msg, listApplyStep (some AttrTy.stringT) (TFAttributePathStep.elementKeyString "k") =
      Except.error msg := by
  have h := claim_C6 (some AttrTy.stringT)
  exact ⟨h.1 3, h.2.1 (TFAttributePathStep.elementKeyString "k") (by intro i hi; cases hi)⟩

/-- Counterexample to C7 as stated: for a list of strings, `String()`
returns `types.ListType[StringType]`, not `ListType[StringType]` — the
canonical name carries a `types.` shape prefix absent from the claim's
format. -/
theorem counterexample_C7 :
    AttrTy.typeString (AttrTy.listT (some AttrTy.stringT)) = some "types.ListType[StringType]" ∧
    AttrTy.typeString (AttrTy.listT (some AttrTy.stringT)) ≠ some "ListType[StringType]" := by
  refine ⟨rfl, ?_⟩
  decide

/-- Claim C7 as amended: for each collection shape with a non-nil
element type, `String()` returns `types.<Shape>Type[<ElementTypeName>]`,
where the element name is the element type's own `String()`. -/
theorem claim_C7 : ∀ (e : AttrTy) (s : String), AttrTy.typeString e = some s →
    AttrTy.typeString (AttrTy.listT (some e)) = some ("types.ListType[" ++ s ++ "]") ∧
    AttrTy.typeString (AttrTy.mapT (some e)) = some ("types.MapType[" ++ s ++ "]") ∧
    AttrTy.typeString (AttrTy.setT (some e)) = some ("types.SetType[" ++ s ++ "]") := by
  intro e s h
  refine ⟨?_, ?_, ?_⟩ <;> simp [AttrTy.typeString, h]

/-- Witness for C7 at the concrete element type of strings. -/
theorem claim_C7_witness :
    AttrTy.typeString (AttrTy.listT (some AttrTy.stringT)) = some "types.ListType[StringType]" ∧
    AttrTy.typeString (AttrTy.mapT (some AttrTy.stringT)) = some "types.MapType[StringType]" ∧
    AttrTy.typeString (AttrTy.setT (some AttrTy.stringT)) = some "types.SetType[StringType]" :=
  claim_C7 AttrTy.stringT "StringType" rfl

/-- Claim C10: converting a nil protocol plan request returns a nil
framework request and nil diagnostics, independently of the resource
type, the schemas, and the helper conversions (none of which are
consulted). -/
theorem claim_C10 : ∀ {DV Cfg St Pl Meta Sch RT : Type} (resourceType : RT)
    (resourceSchema providerMetaSchema : Option Sch)
    (convConfig : Option DV → Option Sch → Option Cfg × List Diagnostic)
    (convState : Option DV → Option Sch → Option St × List Diagnostic)
    (convPlan : Option DV → Option Sch → Option Pl × List Diagnostic)
    (convProviderMeta : Option DV → Option Sch → Option Meta × List Diagnostic),
    planResourceChangeRequest none resourceType resourceSchema providerMetaSchema
      convConfig convState convPlan convProviderMeta =
      (none, ([] : List Diagnostic)) := by
  intros
  rfl

/-- The element conversion loop succeeds exactly when every child
converts, producing the converted children in the same order. -/
theorem convertAll_ok_iff (conv : TFValue → Except String AttrValue) :
    ∀ (cs : List TFValue) (ws : List AttrValue),
    convertAll conv cs = Except.ok ws ↔
      List.Forall₂ (fun c w => conv c = Except.ok w) cs ws := by
  intro cs
  induction cs with
  | nil =>
    intro ws
    simp [convertAll, List.forall₂_nil_left_iff, eq_comm]
  | cons c cs ih =>
    intro ws
    simp only [convertAll]
    cases hc : conv c with
    | error e => simp [List.forall₂_cons_left_iff, hc]
    | ok a =>
      cases hrest : convertAll conv cs with
      | error e =>
        simp only [List.forall₂_cons_left_iff, hc]
        constructor
        · intro h; cases h
        · rintro ⟨b, u, hb, hu, rfl⟩
          have := (ih u).mpr hu
          rw [hrest] at this
          cases this
      | ok rest =>
        simp only [List.forall₂_cons_left_iff, hc]
        constructor
        · intro h
          cases h
          exact ⟨a, rest, rfl, (ih rest).mp hrest, rfl⟩
        · rintro ⟨b, u, hb, hu, rfl⟩
          cases hb
          have := (ih u).mpr hu
          rw [hrest] at this
          cases this
          rfl

/-- The keyed conversion loop succeeds exactly when every entry value
converts, keeping every key in order. -/
theorem convertAllEntries_ok_iff (conv : TFValue → Except String AttrValue) :
    ∀ (es : List (String × TFValue)) (ws : List (String × AttrValue)),
    convertAllEntries conv es = Except.ok ws ↔
      List.Forall₂ (fun ein wout => wout.1 = ein.1 ∧ conv ein.2 = Except.ok wout.2) es ws := by
  intro es
  induction es with
  | nil =>
    intro ws
    simp [convertAllEntries, List.forall₂_nil_left_iff, eq_comm]
  | cons e es ih =>
    intro ws
    simp only [convertAllEntries]
    cases hc : conv e.2 with
    | error err => simp [List.forall₂_cons_left_iff, hc]
    | ok a =>
      cases hrest : convertAllEntries conv es with
      | error err =>
        simp only [List.forall₂_cons_left_iff, hc]
        constructor
        · intro h; cases h
        · rintro ⟨b, u, ⟨hb1, hb2⟩, hu, rfl⟩
          exact absurd ((ih u).mpr hu) (by simp [hrest])
      | ok rest =>
        simp only [List.forall₂_cons_left_iff, hc]
        constructor
        · intro h
          cases h
          exact ⟨(e.1, a), rest, ⟨rfl, rfl⟩, (ih rest).mp hrest, rfl⟩
        · rintro ⟨b, u, ⟨hb1, hb2⟩, hu, rfl⟩
          have := (ih u).mpr hu
          rw [hrest] at this
          cases this
          injection hb2 with h2
          have hb : b = (e.1, a) := by
            cases b
            simp_all
          rw [hb]

/-- The element conversion loop fails exactly when some child fails
while every earlier child converts; the first failing child's error is
the loop's error. -/
theorem convertAll_error_iff (conv : TFValue → Except String AttrValue) :
    ∀ (cs : List TFValue) (msg : String),
    convertAll conv cs = Except.error msg ↔
      ∃ cs1 c cs2, cs = cs1 ++ c :: cs2 ∧
        (∀ c' ∈ cs1, ∃ a, conv c' = Except.ok a) ∧ conv c = Except.error msg := by
  intro cs
  induction cs with
  | nil =>
    intro msg
    simp [convertAll]
  | cons c cs ih =>
    intro msg
    simp only [convertAll]
    cases hc : conv c with
    | error e =>
      constructor
      · intro h
        cases h
        exact ⟨[], c, cs, rfl, by simp, hc⟩
      · rintro ⟨cs1, c', cs2, hsplit, hok, herr⟩
        cases cs1 with
        | nil =>
          simp at hsplit
          rw [hsplit.1] at hc
          rw [hc] at herr
          cases herr
          rfl
        | cons d ds =>
          simp at hsplit
          obtain ⟨rfl, -⟩ := hsplit
          obtain ⟨a, ha⟩ := hok c (by simp)
          rw [ha] at hc
          cases hc
    | ok a =>
      cases hrest : convertAll conv cs with
      | error e =>
        constructor
        · intro h
          cases h
          obtain ⟨cs1, c', cs2, hsplit, hok, herr⟩ := (ih msg).mp hrest
          refine ⟨c :: cs1, c', cs2, by rw [hsplit]; rfl, ?_, herr⟩
          intro x hx
          rcases List.mem_cons.mp hx with hx | hx
          · exact ⟨a, hx ▸ hc⟩
          · exact hok x hx
        · rintro ⟨cs1, c', cs2, hsplit, hok, herr⟩
          cases cs1 with
          | nil =>
            simp at hsplit
            rw [hsplit.1] at hc
            rw [hc] at herr
            cases herr
          | cons d ds =>
            simp at hsplit
            obtain ⟨rfl, htail⟩ := hsplit
            have : convertAll conv cs = Except.error msg := by
              refine (ih msg).mpr ⟨ds, c', cs2, htail, ?_, herr⟩
              intro x hx
              exact hok x (by simp [hx])
            rw [hrest] at this
            cases this
            rfl
      | ok rest =>
        constructor
        · intro h; cases h
        · rintro ⟨cs1, c', cs2, hsplit, hok, herr⟩
          cases cs1 with
          | nil =>
            simp at hsplit
            rw [hsplit.1] at hc
            rw [hc] at herr
            cases herr
          | cons d ds =>
            simp at hsplit
            obtain ⟨rfl, htail⟩ := hsplit
            have : convertAll conv cs = Except.error msg := by
              refine (ih msg).mpr ⟨ds, c', cs2, htail, ?_, herr⟩
              intro x hx
              exact hok x (by simp [hx])
            rw [hrest] at this
            cases this

/-- Counterexample to C3 as stated: a list wire value with one unknown
child is not fully known, yet it converts to a Known value (holding an
unknown element), not to an Unknown value — only a wire value that is
itself unknown at the top level maps to Unknown. -/
theorem counterexample_C3 :
    TFValue.isFullyKnown
      (TFValue.coll (some (TFType.list TFType.string)) [TFValue.unknown (some TFType.string)]) = false ∧
    valueFromTerraform (AttrTy.listT (some AttrTy.stringT))
      (TFValue.coll (some (TFType.list TFType.string)) [TFValue.unknown (some TFType.string)]) =
      Except.ok (AttrValue.listV (some AttrTy.stringT) ValueState.known
        [AttrValue.strV ValueState.unknown ""]) :=
  ⟨rfl, rfl⟩

/-- Claim C3 as amended: for each of the three collection types,
`ValueFromTerraform` maps the wire determinacy states as follows — an
absent wire type converts to Null; a wire value of matching type that is
itself unknown converts to Unknown; a wire-null value of matching type
converts to Null; and any other valid wire value of matching type (one
whose children decode and convert) converts to a Known value whose
element count equals the wire collection's cardinality. -/
theorem claim_C3 : ∀ (e : AttrTy) (ett : TFType), AttrTy.terraformType e = some ett →
    ∀ (v : TFValue),
    (v.typeOf = none →
      valueFromTerraform (AttrTy.listT (some e)) v =
        Except.ok (AttrValue.listV (some e) ValueState.null []) ∧
      valueFromTerraform (AttrTy.mapT (some e)) v =
        Except.ok (AttrValue.mapV (some e) ValueState.null []) ∧
      valueFromTerraform (AttrTy.setT (some e)) v =
        Except.ok (AttrValue.setV (some e) ValueState.null [])) ∧
    (v.isKnown = false →
      (v.typeOf = some (TFType.list ett) →
        valueFromTerraform (AttrTy.listT (some e)) v =
          Except.ok (AttrValue.listV (some e) ValueState.unknown [])) ∧
      (v.typeOf = some (TFType.map ett) →
        valueFromTerraform (AttrTy.mapT (some e)) v =
          Except.ok (AttrValue.mapV (some e) ValueState.unknown [])) ∧
      (v.typeOf = some (TFType.set ett) →
        valueFromTerraform (AttrTy.setT (some e)) v =
          Except.ok (AttrValue.setV (some e) ValueState.unknown []))) ∧
    (v.isNull = true →
      (v.typeOf = some (TFType.list ett) →
        valueFromTerraform (AttrTy.listT (some e)) v =
          Except.ok (AttrValue.listV (some e) ValueState.null [])) ∧
      (v.typeOf = some (TFType.map ett) →
        valueFromTerraform (AttrTy.mapT (some e)) v =
          Except.ok (AttrValue.mapV (some e) ValueState.null [])) ∧
      (v.typeOf = some (TFType.set ett) →
        valueFromTerraform (AttrTy.setT (some e)) v =
          Except.ok (AttrValue.setV (some e) ValueState.null []))) ∧
    (∀ cs ws, v = TFValue.coll (some (TFType.list ett)) cs →
      convertAll (fun c => valueFromTerraform e c) cs = Except.ok ws →
      valueFromTerraform (AttrTy.listT (some e)) v =
        Except.ok (AttrValue.listV (some e) ValueState.known ws) ∧
      ws.length = cs.length) ∧
    (∀ cs ws, v = TFValue.coll (some (TFType.set ett)) cs →
      convertAll (fun c => valueFromTerraform e c) cs = Except.ok ws →
      valueFromTerraform (AttrTy.setT (some e)) v =
        Except.ok (AttrValue.setV (some e) ValueState.known ws) ∧
      ws.length = cs.length) ∧
    (∀ es ws, v = TFValue.mapv (some (TFType.map ett)) es →
      convertAllEntries (fun c => valueFromTerraform e c) es = Except.ok ws →
      valueFromTerraform (AttrTy.mapT (some e)) v =
        Except.ok (AttrValue.mapV (some e) ValueState.known ws) ∧
      ws.length = es.length) := by
  intro e ett h v
  refine ⟨?_, ?_, ?_, ?_, ?_, ?_⟩
  · intro ht
    cases v <;> simp_all [valueFromTerraform, listConvertCore, mapConvertCore, setConvertCore,
      TFValue.typeOf]
  · intro hk
    refine ⟨?_, ?_, ?_⟩ <;> intro ht <;>
      cases v <;> simp_all [valueFromTerraform, listConvertCore, mapConvertCore, setConvertCore,
        TFValue.typeOf, TFValue.isKnown, TFValue.isNull, TFType.isMap]
  · intro hn
    refine ⟨?_, ?_, ?_⟩ <;> intro ht <;>
      cases v <;> simp_all [valueFromTerraform, listConvertCore, mapConvertCore, setConvertCore,
        TFValue.typeOf, TFValue.isKnown, TFValue.isNull, TFType.isMap]
  · rintro cs ws rfl hconv
    refine ⟨?_, ?_⟩
    · simp [valueFromTerraform, listConvertCore, TFValue.typeOf, TFValue.isKnown,
        TFValue.isNull, TFValue.asColl, Except.map, h, hconv]
    · exact ((convertAll_ok_iff _ cs ws).mp hconv).length_eq.symm
  · rintro cs ws rfl hconv
    refine ⟨?_, ?_⟩
    · simp [valueFromTerraform, setConvertCore, TFValue.typeOf, TFValue.isKnown,
        TFValue.isNull, TFValue.asColl, Except.map, h, hconv]
    · exact ((convertAll_ok_iff _ cs ws).mp hconv).length_eq.symm
  · rintro es ws rfl hconv
    refine ⟨?_, ?_⟩
    · simp [valueFromTerraform, mapConvertCore, TFValue.typeOf, TFValue.isKnown,
        TFValue.isNull, TFValue.asEntries, TFType.isMap, Except.map, h, hconv]
    · exact ((convertAllEntries_ok_iff _ es ws).mp hconv).length_eq.symm

/-- Witness for C3 at concrete inputs: an unknown set wire value of
strings converts to the Unknown set value, and a two-element known map
wire value converts to a Known map value of cardinality two. -/
theorem claim_C3_witness :
    valueFromTerraform (AttrTy.setT (some AttrTy.stringT))
      (TFValue.unknown (some (TFType.set TFType.string))) =
      Except.ok (AttrValue.setV (some AttrTy.stringT) ValueState.unknown []) ∧
    valueFromTerraform (AttrTy.mapT (some AttrTy.stringT))
      (TFValue.mapv (some (TFType.map TFType.string)) [("x", wireStr "1"), ("y", wireStr "2")]) =
      Except.ok (AttrValue.mapV (some AttrTy.stringT) ValueState.known
        [("x", AttrValue.strV ValueState.known "1"), ("y", AttrValue.strV ValueState.known "2")]) ∧
    ([("x", AttrValue.strV ValueState.known "1"), ("y", AttrValue.strV ValueState.known "2")].length = 2) := by
  have h1 := (claim_C3 AttrTy.stringT TFType.string rfl
    (TFValue.unknown (some (TFType.set TFType.string)))).2.1 rfl
  have h2 := (claim_C3 AttrTy.stringT TFType.string rfl
    (TFValue.mapv (some (TFType.map TFType.string)) [("x", wireStr "1"), ("y", wireStr "2")])).2.2.2.2.2
  exact ⟨h1.2.2 rfl,
    (h2 [("x", wireStr "1"), ("y", wireStr "2")]
      [("x", AttrValue.strV ValueState.known "1"), ("y", AttrValue.strV ValueState.known "2")]
      rfl rfl).1, rfl⟩

/-- Claim C5: for every fully-known, non-null list wire value of
matching type, `ListType.ValueFromTerraform` converts each child with
the element type's own conversion in order: it succeeds with a Known
value holding exactly the in-order converted children, and it fails with
exactly the error of the first failing child, with no partial result. -/
theorem claim_C5 : ∀ (e : AttrTy) (ett : TFType), AttrTy.terraformType e = some ett →
    ∀ (cs : List TFValue),
    TFValue.isFullyKnown (TFValue.coll (some (TFType.list ett)) cs) = true →
    (∀ ws, valueFromTerraform (AttrTy.listT (some e))
        (TFValue.coll (some (TFType.list ett)) cs) =
        Except.ok (AttrValue.listV (some e) ValueState.known ws) ↔
      List.Forall₂ (fun c w => valueFromTerraform e c = Except.ok w) cs ws) ∧
    (∀ msg, valueFromTerraform (AttrTy.listT (some e))
        (TFValue.coll (some (TFType.list ett)) cs) = Except.error msg ↔
      ∃ cs1 c cs2, cs = cs1 ++ c :: cs2 ∧
        (∀ c' ∈ cs1, ∃ a, valueFromTerraform e c' = Except.ok a) ∧
        valueFromTerraform e c = Except.error msg) := by
  intro e ett h cs _
  have hcore : valueFromTerraform (AttrTy.listT (some e))
      (TFValue.coll (some (TFType.list ett)) cs) =
      (convertAll (fun c => valueFromTerraform e c) cs).map
        (fun elems => AttrValue.listV (some e) ValueState.known elems) := by
    simp [valueFromTerraform, listConvertCore, TFValue.typeOf, TFValue.isKnown,
      TFValue.isNull, TFValue.asColl, h]
  constructor
  · intro ws
    rw [hcore]
    cases hca : convertAll (fun c => valueFromTerraform e c) cs with
    | error err =>
      simp only [Except.map]
      constructor
      · intro habs; cases habs
      · intro h2
        have := (convertAll_ok_iff _ cs ws).mpr h2
        rw [hca] at this
        cases this
    | ok ws' =>
      simp only [Except.map]
      constructor
      · intro heq
        injection heq with heq
        injection heq with h1 h2 h3
        exact h3 ▸ (convertAll_ok_iff _ cs ws').mp hca
      · intro h2
        have := (convertAll_ok_iff _ cs ws).mpr h2
        rw [hca] at this
        injection this with this
        rw [this]
  · intro msg
    rw [hcore]
    cases hca : convertAll (fun c => valueFromTerraform e c) cs with
    | error err =>
      simp only [Except.map]
      constructor
      · intro heq
        injection heq with heq
        exact heq ▸ (convertAll_error_iff _ cs err).mp hca
      · intro h2
        have := (convertAll_error_iff _ cs msg).mpr h2
        rw [hca] at this
        injection this with this
        rw [this]
    | ok ws' =>
      simp only [Except.map]
      constructor
      · intro habs; cases habs
      · intro h2
        have := (convertAll_error_iff _ cs msg).mpr h2
        rw [hca] at this
        cases this

/-- Witness for C5 at concrete inputs: converting the wire list
`["a","b","c"]` of strings yields the Known value with exactly that
sequence in that order. -/
theorem claim_C5_witness :
    valueFromTerraform (AttrTy.listT (some AttrTy.stringT))
      (TFValue.coll (some (TFType.list TFType.string)) [wireStr "a", wireStr "b", wireStr "c"]) =
      Except.ok (AttrValue.listV (some AttrTy.stringT) ValueState.known
        [AttrValue.strV ValueState.known "a", AttrValue.strV ValueState.known "b",
          AttrValue.strV ValueState.known "c"]) :=
  ((claim_C5 AttrTy.stringT TFType.string rfl [wireStr "a", wireStr "b", wireStr "c"] rfl).1
    [AttrValue.strV ValueState.known "a", AttrValue.strV ValueState.known "b",
      AttrValue.strV ValueState.known "c"]).mpr
    (List.Forall₂.cons rfl (List.Forall₂.cons rfl (List.Forall₂.cons rfl List.Forall₂.nil)))

/-- A list validation returns no diagnostics when the wire type is
absent, or when the wire type is list-shaped and the value is itself
unknown or null. -/
theorem listValidateCore_exempt (ev : Option (TFValue → Path → List Diagnostic))
    (v : TFValue) (p : Path) :
    (v.typeOf = none → listValidateCore ev v p = []) ∧
    (∀ t, v.typeOf = some t → t.isList = true → (v.isKnown = false ∨ v.isNull = true) →
      listValidateCore ev v p = []) := by
  constructor
  · intro h
    simp [listValidateCore, h]
  · intro t ht hl hkn
    rcases hkn with hk | hn
    · simp [listValidateCore, ht, hl, hk]
    · simp [listValidateCore, ht, hl, hn]

/-- Map analogue of `listValidateCore_exempt`. -/
theorem mapValidateCore_exempt (ev : Option (TFValue → Path → List Diagnostic))
    (v : TFValue) (p : Path) :
    (v.typeOf = none → mapValidateCore ev v p = []) ∧
    (∀ t, v.typeOf = some t → t.isMap = true → (v.isKnown = false ∨ v.isNull = true) →
      mapValidateCore ev v p = []) := by
  constructor
  · intro h
    simp [mapValidateCore, h]
  · intro t ht hl hkn
    rcases hkn with hk | hn
    · simp [mapValidateCore, ht, hl, hk]
    · simp [mapValidateCore, ht, hl, hn]

/-- Set analogue of `listValidateCore_exempt`. -/
theorem setValidateCore_exempt
    (info : Option ((TFValue → Path → List Diagnostic) × (TFValue → Except String AttrValue)))
    (v : TFValue) (p : Path) :
    (v.typeOf = none → setValidateCore info v p = []) ∧
    (∀ t, v.typeOf = some t → t.isSet = true → (v.isKnown = false ∨ v.isNull = true) →
      setValidateCore info v p = []) := by
  constructor
  · intro h
    simp [setValidateCore, h]
  · intro t ht hl hkn
    rcases hkn with hk | hn
    · simp [setValidateCore, ht, hl, hk]
    · simp [setValidateCore, ht, hl, hn]

/-- Counterexample to C8 as stated: first, a set wire value that is not
fully known (it has an unknown child) but is itself known still produces
diagnostics (its two known equal children yield a duplicate diagnostic);
second, a wire value that is unknown, but whose wire type is not of the
collection's shape, produces a shape-error diagnostic instead of none. -/
theorem counterexample_C8 :
    (TFValue.isFullyKnown
        (TFValue.coll (some (TFType.set TFType.string))
          [wireStr "a", wireStr "a", TFValue.unknown (some TFType.string)]) = false ∧
      validate (AttrTy.setT (some AttrTy.stringT))
        (TFValue.coll (some (TFType.set TFType.string))
          [wireStr "a", wireStr "a", TFValue.unknown (some TFType.string)]) [] ≠ []) ∧
    (TFValue.isKnown (TFValue.unknown (some TFType.string)) = false ∧
      validate (AttrTy.listT (some AttrTy.stringT))
        (TFValue.unknown (some TFType.string)) [] ≠ []) := by
  refine ⟨⟨rfl, ?_⟩, ⟨rfl, ?_⟩⟩ <;> decide

/-- Claim C8 as amended: for each of the three collection types,
`Validate` returns an empty diagnostics collection when the wire type is
absent, and when the wire type has the matching collection shape and the
wire value is itself unknown (not known at the top level) or null,
regardless of any children. -/
theorem claim_C8 : ∀ (e : Option AttrTy) (v : TFValue) (p : Path),
    (v.typeOf = none →
      validate (AttrTy.listT e) v p = [] ∧
      validate (AttrTy.mapT e) v p = [] ∧
      validate (AttrTy.setT e) v p = []) ∧
    (∀ t, v.typeOf = some t → (v.isKnown = false ∨ v.isNull = true) →
      (t.isList = true → validate (AttrTy.listT e) v p = []) ∧
      (t.isMap = true → validate (AttrTy.mapT e) v p = []) ∧
      (t.isSet = true → validate (AttrTy.setT e) v p = [])) := by
  intro e v p
  constructor
  · intro h
    refine ⟨?_, ?_, ?_⟩ <;> cases e <;>
      simp only [validate] <;>
      first
        | exact (listValidateCore_exempt _ v p).1 h
        | exact (mapValidateCore_exempt _ v p).1 h
        | exact (setValidateCore_exempt _ v p).1 h
  · intro t ht hkn
    refine ⟨?_, ?_, ?_⟩ <;> intro hshape <;> cases e <;>
      simp only [validate] <;>
      first
        | exact (listValidateCore_exempt _ v p).2 t ht hshape hkn
        | exact (mapValidateCore_exempt _ v p).2 t ht hshape hkn
        | exact (setValidateCore_exempt _ v p).2 t ht hshape hkn

/-- Witness for C8 at concrete inputs: a null list wire value, an
unknown set wire value and a type-absent wire value validate to no
diagnostics. -/
theorem claim_C8_witness :
    validate (AttrTy.listT (some AttrTy.stringT))
      (TFValue.null (some (TFType.list TFType.string))) [] = [] ∧
    validate (AttrTy.setT (some AttrTy.stringT))
      (TFValue.unknown (some (TFType.set TFType.string))) [] = [] ∧
    validate (AttrTy.mapT (some AttrTy.stringT)) (TFValue.unknown none) [] = [] := by
  refine ⟨?_, ?_, ?_⟩
  · exact (((claim_C8 (some AttrTy.stringT)
      (TFValue.null (some (TFType.list TFType.string))) []).2
      (TFType.list TFType.string) rfl (Or.inr rfl)).1 rfl)
  · exact (((claim_C8 (some AttrTy.stringT)
      (TFValue.unknown (some (TFType.set TFType.string))) []).2
      (TFType.set TFType.string) rfl (Or.inl rfl)).2.2 rfl)
  · exact ((claim_C8 (some AttrTy.stringT) (TFValue.unknown none) []).1 rfl).2.1

/-- Appending to a fixed string on the left is injective. -/
theorem string_append_cancel {s a b : String} (h : s ++ a = s ++ b) : a = b := by
  have := congrArg String.data h
  simp at this
  exact String.ext this

/-- Two duplicate-element diagnostics at the same path coincide exactly
when the named values render identically. -/
theorem dupDiag_eq_iff (p : Path) (a b : TFValue) :
    dupDiag p a = dupDiag p b ↔ TFValue.render a = TFValue.render b := by
  constructor
  · intro h
    injection h with h1 h2 h3
    exact string_append_cancel h3
  · intro h
    simp [dupDiag, h]

/-- Every diagnostic of the duplicate scan is a duplicate-element
diagnostic at the scanned path. -/
theorem setDupScan_shape : ∀ (c : TFValue) (rest : List TFValue) (p : Path)
    (d : Diagnostic), d ∈ setDupScan c rest p → ∃ x, x ∈ rest ∧ x = c ∧ d = dupDiag p x := by
  intro c rest
  induction rest with
  | nil => intro p d h; simp [setDupScan] at h
  | cons x rest ih =>
    intro p d h
    simp only [setDupScan, List.mem_append] at h
    rcases h with h | h
    · by_cases hx : x = c
      · rw [if_pos hx] at h
        simp at h
        exact ⟨x, by simp, hx, h⟩
      · rw [if_neg hx] at h
        simp at h
    · obtain ⟨y, hy, hyc, hd⟩ := ih p d h
      exact ⟨y, by simp [hy], hyc, hd⟩

/-- The duplicate scan records one diagnostic for each later child equal
to the current child; in particular it records one for any given later
equal child. -/
theorem setDupScan_mem_of : ∀ (c : TFValue) (rest : List TFValue) (p : Path)
    (x : TFValue), x ∈ rest → x = c → dupDiag p x ∈ setDupScan c rest p := by
  intro c rest
  induction rest with
  | nil => intro p x hx; simp at hx
  | cons y rest ih =>
    intro p x hx hxc
    rcases List.mem_cons.mp hx with rfl | hx
    · simp only [setDupScan, List.mem_append]
      left
      rw [if_pos hxc]
      simp
    · simp only [setDupScan, List.mem_append]
      right
      exact ih p x hx hxc

/-- Counting the duplicate diagnostics that name `v` in one scan: when
the children render faithfully (`render` collides only on equal values),
the scan for a current child equal to `v` contributes one diagnostic per
later occurrence of `v`, and a scan for any other child contributes
none. -/
theorem setDupScan_dup_count (p : Path) (v c : TFValue) :
    ∀ (rest : List TFValue),
    (∀ c' ∈ rest, TFValue.render c' = TFValue.render v → c' = v) →
    List.countP (fun d => decide (d = dupDiag p v)) (setDupScan c rest p) =
      if c = v then rest.countP (fun c' => decide (c' = v)) else 0 := by
  intro rest
  induction rest with
  | nil =>
    intro _
    simp [setDupScan]
  | cons x rest ih =>
    intro hsep
    have hsep' : ∀ c' ∈ rest, TFValue.render c' = TFValue.render v → c' = v := by
      intro c' hc'
      exact hsep c' (by simp [hc'])
    simp only [setDupScan, List.countP_append, List.countP_cons]
    rw [ih hsep']
    by_cases hx : x = c
    · rw [if_pos hx]
      by_cases hcv : c = v
      · rw [if_pos hcv, if_pos hcv]
        subst hcv
        subst hx
        simp [List.countP_cons, dupDiag_eq_iff]
        omega
      · rw [if_neg hcv, if_neg hcv]
        have hne : ¬ dupDiag p x = dupDiag p v := by
          intro h
          exact hcv (hx ▸ hsep x (by simp) ((dupDiag_eq_iff p x v).mp h))
        simp [List.countP_cons, hne]
    · rw [if_neg hx]
      by_cases hcv : c = v
      · rw [if_pos hcv, if_pos hcv]
        by_cases hxv : x = v
        · exact absurd (hxv.trans hcv.symm) hx
        · simp [List.countP_cons, hxv]
      · rw [if_neg hcv, if_neg hcv]
        simp

/-- Diagnostics of the list element loop live at extensions of the
loop's base path, provided the element validator's do. -/
theorem listValidateLoop_path_ext (f : TFValue → Path → List Diagnostic)
    (hf : ∀ c q d, d ∈ f c q → ∃ ext, d.path = some (q ++ ext)) :
    ∀ (cs : List TFValue) (p : Path) (idx : Nat) (d : Diagnostic),
    d ∈ listValidateLoop f cs p idx → ∃ ext, d.path = some (p ++ ext) := by
  intro cs
  induction cs with
  | nil => intro p idx d h; simp [listValidateLoop] at h
  | cons c cs ih =>
    intro p idx d h
    simp only [listValidateLoop, List.mem_append] at h
    rcases h with h | h
    · by_cases hk : c.isFullyKnown
      · rw [if_pos hk] at h
        obtain ⟨ext, hext⟩ := hf c (p.atListIndex idx) d h
        exact ⟨FwPathStep.elementKeyInt idx :: ext, by
          rw [hext]; simp [Path.atListIndex]⟩
      · rw [if_neg hk] at h
        simp at h
    · exact ih p (idx + 1) d h

/-- Map analogue of `listValidateLoop_path_ext`. -/
theorem mapValidateLoop_path_ext (f : TFValue → Path → List Diagnostic)
    (hf : ∀ c q d, d ∈ f c q → ∃ ext, d.path = some (q ++ ext)) :
    ∀ (es : List (String × TFValue)) (p : Path) (d : Diagnostic),
    d ∈ mapValidateLoop f es p → ∃ ext, d.path = some (p ++ ext) := by
  intro es
  induction es with
  | nil => intro p d h; simp [mapValidateLoop] at h
  | cons e es ih =>
    intro p d h
    simp only [mapValidateLoop, List.mem_append] at h
    rcases h with h | h
    · by_cases hk : e.2.isFullyKnown
      · rw [if_pos hk] at h
        obtain ⟨ext, hext⟩ := hf e.2 (p.atMapKey e.1) d h
        exact ⟨FwPathStep.elementKeyString e.1 :: ext, by
          rw [hext]; simp [Path.atMapKey]⟩
      · rw [if_neg hk] at h
        simp at h
    · exact ih p d h

/-- Set analogue of `listValidateLoop_path_ext`: conversion-error and
duplicate diagnostics live at the base path itself; element-validation
diagnostics live below the set-value step. -/
theorem setValidateLoop_path_ext
    (info : Option ((TFValue → Path → List Diagnostic) × (TFValue → Except String AttrValue)))
    (hinfo : ∀ evc, info = some evc →
      ∀ c q d, d ∈ evc.1 c q → ∃ ext, d.path = some (q ++ ext)) :
    ∀ (cs : List TFValue) (p : Path) (d : Diagnostic),
    d ∈ setValidateLoop info cs p → ∃ ext, d.path = some (p ++ ext) := by
  rcases info with _ | ⟨ev, conv⟩
  · intro cs
    induction cs with
    | nil => intro p d h; simp [setValidateLoop] at h
    | cons c cs ih =>
      intro p d h
      simp only [setValidateLoop] at h
      by_cases hk : c.isFullyKnown
      · rw [if_neg (by simp [hk])] at h
        simp only [List.mem_append] at h
        rcases h with h | h
        · obtain ⟨x, _, _, hd⟩ := setDupScan_shape c cs p d h
          exact ⟨[], by rw [hd]; simp [dupDiag]⟩
        · exact ih p d h
      · rw [if_pos (by simp [hk])] at h
        exact ih p d h
  · have hev : ∀ c q d, d ∈ ev c q → ∃ ext, d.path = some (q ++ ext) :=
      fun c q d => hinfo (ev, conv) rfl c q d
    intro cs
    induction cs with
    | nil => intro p d h; simp [setValidateLoop] at h
    | cons c cs ih =>
      intro p d h
      simp only [setValidateLoop] at h
      by_cases hk : c.isFullyKnown
      · rw [if_neg (by simp [hk])] at h
        cases hc : conv c with
        | error err =>
          rw [hc] at h
          simp at h
          exact ⟨[], by rw [h]; simp⟩
        | ok a =>
          rw [hc] at h
          simp only [List.mem_append] at h
          rcases h with (h | h) | h
          · obtain ⟨ext, hext⟩ := hev c (p.atSetValue a) d h
            exact ⟨FwPathStep.elementKeyValue a :: ext, by
              rw [hext]; simp [Path.atSetValue]⟩
          · obtain ⟨x, _, _, hd⟩ := setDupScan_shape c cs p d h
            exact ⟨[], by rw [hd]; simp [dupDiag]⟩
          · exact ih p d h
      · rw [if_pos (by simp [hk])] at h
        exact ih p d h

/-- Diagnostics of `ListType.Validate` live at extensions of the
validated path. -/
theorem listValidateCore_path_ext
    (ev : Option (TFValue → Path → List Diagnostic))
    (hev : ∀ f, ev = some f → ∀ c q d, d ∈ f c q → ∃ ext, d.path = some (q ++ ext)) :
    ∀ (v : TFValue) (p : Path) (d : Diagnostic),
    d ∈ listValidateCore ev v p → ∃ ext, d.path = some (p ++ ext) := by
  rcases ev with _ | f
  · intro v p d h
    unfold listValidateCore at h
    split at h
    · simp at h
    · split at h
      · simp at h
        exact ⟨[], by rw [h]; simp⟩
      · split at h
        · simp at h
        · split at h
          · simp at h
            exact ⟨[], by rw [h]; simp⟩
          · simp at h
  · intro v p d h
    unfold listValidateCore at h
    split at h
    · simp at h
    · split at h
      · simp at h
        exact ⟨[], by rw [h]; simp⟩
      · split at h
        · simp at h
        · split at h
          · simp at h
            exact ⟨[], by rw [h]; simp⟩
          · exact listValidateLoop_path_ext f (hev f rfl) _ p 0 d h

/-- Map analogue of `listValidateCore_path_ext`. -/
theorem mapValidateCore_path_ext
    (ev : Option (TFValue → Path → List Diagnostic))
    (hev : ∀ f, ev = some f → ∀ c q d, d ∈ f c q → ∃ ext, d.path = some (q ++ ext)) :
    ∀ (v : TFValue) (p : Path) (d : Diagnostic),
    d ∈ mapValidateCore ev v p → ∃ ext, d.path = some (p ++ ext) := by
  rcases ev with _ | f
  · intro v p d h
    unfold mapValidateCore at h
    split at h
    · simp at h
    · split at h
      · simp at h
        exact ⟨[], by rw [h]; simp⟩
      · split at h
        · simp at h
        · split at h
          · simp at h
            exact ⟨[], by rw [h]; simp⟩
          · simp at h
  · intro v p d h
    unfold mapValidateCore at h
    split at h
    · simp at h
    · split at h
      · simp at h
        exact ⟨[], by rw [h]; simp⟩
      · split at h
        · simp at h
        · split at h
          · simp at h
            exact ⟨[], by rw [h]; simp⟩
          · exact mapValidateLoop_path_ext f (hev f rfl) _ p d h

/-- Set analogue of `listValidateCore_path_ext`. -/
theorem setValidateCore_path_ext
    (info : Option ((TFValue → Path → List Diagnostic) × (TFValue → Except String AttrValue)))
    (hinfo : ∀ evc, info = some evc →
      ∀ c q d, d ∈ evc.1 c q → ∃ ext, d.path = some (q ++ ext)) :
    ∀ (v : TFValue) (p : Path) (d : Diagnostic),
    d ∈ setValidateCore info v p → ∃ ext, d.path = some (p ++ ext) := by
  intro v p d h
  unfold setValidateCore at h
  split at h
  · simp at h
  · split at h
    · simp at h
      exact ⟨[], by rw [h]; simp⟩
    · split at h
      · simp at h
      · split at h
        · simp at h
          exact ⟨[], by rw [h]; simp⟩
        · exact setValidateLoop_path_ext info hinfo _ p d h

/-- Every diagnostic recorded by `Validate` is addressed at the
validated path or an extension of it. -/
theorem validate_path_ext : ∀ (t : AttrTy) (v : TFValue) (q : Path) (d : Diagnostic),
    d ∈ validate t v q → ∃ ext, d.path = some (q ++ ext)
  | AttrTy.stringT, v, q, d => by
    intro h
    simp [validate] at h
  | AttrTy.listT none, v, q, d => by
    intro h
    exact listValidateCore_path_ext none (by intro f hf; cases hf) v q d h
  | AttrTy.listT (some e), v, q, d => by
    intro h
    refine listValidateCore_path_ext _ ?_ v q d h
    intro f hf c q' d' hd'
    by_cases hv : e.isValidatableTy
    · rw [if_pos hv] at hf
      injection hf with hf
      subst hf
      exact validate_path_ext e c q' d' hd'
    · rw [if_neg hv] at hf
      cases hf
  | AttrTy.mapT none, v, q, d => by
    intro h
    exact mapValidateCore_path_ext none (by intro f hf; cases hf) v q d h
  | AttrTy.mapT (some e), v, q, d => by
    intro h
    refine mapValidateCore_path_ext _ ?_ v q d h
    intro f hf c q' d' hd'
    by_cases hv : e.isValidatableTy
    · rw [if_pos hv] at hf
      injection hf with hf
      subst hf
      exact validate_path_ext e c q' d' hd'
    · rw [if_neg hv] at hf
      cases hf
  | AttrTy.setT none, v, q, d => by
    intro h
    exact setValidateCore_path_ext none (by intro evc hevc; cases hevc) v q d h
  | AttrTy.setT (some e), v, q, d => by
    intro h
    refine setValidateCore_path_ext _ ?_ v q d h
    intro evc hevc c q' d' hd'
    by_cases hv : e.isValidatableTy
    · rw [if_pos hv] at hevc
      injection hevc with hevc
      subst hevc
      exact validate_path_ext e c q' d' hd'
    · rw [if_neg hv] at hevc
      cases hevc

/-- Unfolding equation of the set outer loop without a validatable
element type. -/
theorem setValidateLoop_cons_none (c : TFValue) (cs : List TFValue) (p : Path) :
    setValidateLoop none (c :: cs) p =
      if ¬ c.isFullyKnown then setValidateLoop none cs p
      else setDupScan c cs p ++ setValidateLoop none cs p := rfl

/-- Unfolding equation of the set outer loop with a validatable element
type. -/
theorem setValidateLoop_cons_some (ev : TFValue → Path → List Diagnostic)
    (conv : TFValue → Except String AttrValue) (c : TFValue) (cs : List TFValue) (p : Path) :
    setValidateLoop (some (ev, conv)) (c :: cs) p =
      if ¬ c.isFullyKnown then setValidateLoop (some (ev, conv)) cs p
      else
        match conv c with
        | Except.error err =>
          [⟨some p, "Set Type Validation Error", internalErrDetail err⟩]
        | Except.ok a =>
          ev c (p.atSetValue a) ++ setDupScan c cs p ++
            setValidateLoop (some (ev, conv)) cs p := rfl

/-- Under a non-aborting run, the set outer loop records the duplicate
diagnostic for every pair of positions holding fully known, equal
children. -/
theorem setValidateLoop_dup_mem
    (info : Option ((TFValue → Path → List Diagnostic) × (TFValue → Except String AttrValue)))
    (p : Path) :
    ∀ (cs : List TFValue) (i j : Nat) (ci cj : TFValue),
    i < j → cs[i]? = some ci → cs[j]? = some cj →
    ci.isFullyKnown = true → cj = ci →
    (∀ evc, info = some evc → ∀ c ∈ cs, c.isFullyKnown = true → ∃ a, evc.2 c = Except.ok a) →
    dupDiag p cj ∈ setValidateLoop info cs p := by
  rcases info with _ | ⟨ev, conv⟩
  · intro cs
    induction cs with
    | nil =>
      intro i j ci cj hij hci
      simp at hci
    | cons c cs ih =>
      intro i j ci cj hij hci hcj hki hji hconv
      cases i with
      | zero =>
        simp at hci
        subst hci
        cases j with
        | zero => omega
        | succ j' =>
          simp at hcj
          rw [setValidateLoop_cons_none, if_neg (by simp [hki])]
          exact List.mem_append.mpr
            (Or.inl (setDupScan_mem_of c cs p cj (List.getElem?_mem hcj) hji))
      | succ i' =>
        cases j with
        | zero => omega
        | succ j' =>
          simp at hci hcj
          have hrec := ih i' j' ci cj (by omega) hci hcj hki hji
            (by intro evc hevc; cases hevc)
          rw [setValidateLoop_cons_none]
          by_cases hkc : c.isFullyKnown
          · rw [if_neg (by simp [hkc])]
            exact List.mem_append.mpr (Or.inr hrec)
          · rw [if_pos (by simp [hkc])]
            exact hrec
  · intro cs
    induction cs with
    | nil =>
      intro i j ci cj hij hci
      simp at hci
    | cons c cs ih =>
      intro i j ci cj hij hci hcj hki hji hconv
      cases i with
      | zero =>
        simp at hci
        subst hci
        cases j with
        | zero => omega
        | succ j' =>
          simp at hcj
          rw [setValidateLoop_cons_some, if_neg (by simp [hki])]
          obtain ⟨a, ha⟩ := hconv (ev, conv) rfl c (by simp) hki
          have ha' : conv c = Except.ok a := ha
          rw [ha']
          exact List.mem_append.mpr (Or.inl (List.mem_append.mpr
            (Or.inr (setDupScan_mem_of c cs p cj (List.getElem?_mem hcj) hji))))
      | succ i' =>
        cases j with
        | zero => omega
        | succ j' =>
          simp at hci hcj
          have hrec := ih i' j' ci cj (by omega) hci hcj hki hji
            (by intro evc hevc c' hc' hkc'
                exact hconv evc hevc c' (by simp [hc']) hkc')
          rw [setValidateLoop_cons_some]
          by_cases hkc : c.isFullyKnown
          · rw [if_neg (by simp [hkc])]
            obtain ⟨a, ha⟩ := hconv (ev, conv) rfl c (by simp) hkc
            have ha' : conv c = Except.ok a := ha
            rw [ha']
            exact List.mem_append.mpr (Or.inr hrec)
          · rw [if_pos (by simp [hkc])]
            exact hrec

/-- Claim C1 as amended: for every set-shaped, known, non-null wire
value with two distinct positions holding fully known, mutually equal
children, `SetType.Validate` records a duplicate-element diagnostic
naming the duplicated value but addressed at the set's own path (not the
set-element path), provided that when the element type is validatable
its conversion accepts every fully known child (a failing conversion
aborts the scan). -/
theorem claim_C1 : ∀ (e : Option AttrTy) (vt : TFType) (cs : List TFValue) (p : Path)
    (i j : Nat) (ci cj : TFValue),
    vt.isSet = true → i < j → cs[i]? = some ci → cs[j]? = some cj →
    ci.isFullyKnown = true → cj.isFullyKnown = true → cj = ci →
    (∀ e', e = some e' → e'.isValidatableTy = true →
      ∀ c ∈ cs, c.isFullyKnown = true → ∃ a, valueFromTerraform e' c = Except.ok a) →
    dupDiag p cj ∈ validate (AttrTy.setT e) (TFValue.coll (some vt) cs) p := by
  intro e vt cs p i j ci cj hs hij hci hcj hki hkj hji hconv
  rcases e with _ | e'
  · have hcore : validate (AttrTy.setT none) (TFValue.coll (some vt) cs) p =
        setValidateLoop none cs p := by
      simp [validate, setValidateCore, TFValue.typeOf, TFValue.isKnown, TFValue.isNull,
        TFValue.asColl, hs]
    rw [hcore]
    exact setValidateLoop_dup_mem none p cs i j ci cj hij hci hcj hki hji
      (by intro evc hevc; cases hevc)
  · by_cases hv : e'.isValidatableTy
    · have hcore : validate (AttrTy.setT (some e')) (TFValue.coll (some vt) cs) p =
          setValidateLoop
            (some ((fun c q => validate e' c q), (fun c => valueFromTerraform e' c))) cs p := by
        simp [validate, setValidateCore, TFValue.typeOf, TFValue.isKnown, TFValue.isNull,
          TFValue.asColl, hs, hv]
      rw [hcore]
      refine setValidateLoop_dup_mem _ p cs i j ci cj hij hci hcj hki hji ?_
      intro evc hevc c hc hkc
      injection hevc with hevc
      subst hevc
      exact hconv e' rfl hv c hc hkc
    · have hcore : validate (AttrTy.setT (some e')) (TFValue.coll (some vt) cs) p =
          setValidateLoop none cs p := by
        simp [validate, setValidateCore, TFValue.typeOf, TFValue.isKnown, TFValue.isNull,
          TFValue.asColl, hs, hv]
      rw [hcore]
      exact setValidateLoop_dup_mem none p cs i j ci cj hij hci hcj hki hji
        (by intro evc hevc; cases hevc)

/-- Counterexample to C1 as stated: validating the set wire value
`["a","a"]` of strings at the path `test` records its duplicate-element
diagnostic at the set's own path `test`, which is not the set-element
path `test[Value("a")]` for the offending value (whose converted form is
the known string value `"a"`). -/
theorem counterexample_C1 :
    validate (AttrTy.setT (some AttrTy.stringT))
      (TFValue.coll (some (TFType.set TFType.string)) [wireStr "a", wireStr "a"])
      [FwPathStep.attributeName "test"] =
      [dupDiag [FwPathStep.attributeName "test"] (wireStr "a")] ∧
    valueFromTerraform AttrTy.stringT (wireStr "a") =
      Except.ok (AttrValue.strV ValueState.known "a") ∧
    (dupDiag [FwPathStep.attributeName "test"] (wireStr "a")).path ≠
      some (Path.atSetValue [FwPathStep.attributeName "test"]
        (AttrValue.strV ValueState.known "a")) := by
  refine ⟨rfl, rfl, ?_⟩
  decide

/-- Witness for C1 at concrete inputs: validating `["a","b","a"]` as a
set of strings records the duplicate diagnostic for `"a"` at the set's
own (empty) path. -/
theorem claim_C1_witness :
    dupDiag [] (wireStr "a") ∈
      validate (AttrTy.setT (some AttrTy.stringT))
        (TFValue.coll (some (TFType.set TFType.string))
          [wireStr "a", wireStr "b", wireStr "a"]) [] :=
  claim_C1 (some AttrTy.stringT) (TFType.set TFType.string)
    [wireStr "a", wireStr "b", wireStr "a"] [] 0 2 (wireStr "a") (wireStr "a")
    rfl (by omega) rfl rfl rfl rfl rfl
    (by intro e' he' hv
        injection he' with h
        subst h
        exact absurd hv (by decide))

/-- Each fully known element's validation diagnostics form a contiguous
segment of the list element loop's output, regardless of what the other
elements produce. -/
theorem listValidateLoop_infix (f : TFValue → Path → List Diagnostic) :
    ∀ (cs : List TFValue) (p : Path) (idx i : Nat) (c : TFValue),
    cs[i]? = some c → c.isFullyKnown = true →
    List.IsInfix (f c (p.atListIndex (idx + i))) (listValidateLoop f cs p idx) := by
  intro cs
  induction cs with
  | nil => intro p idx i c hci; simp at hci
  | cons c0 cs ih =>
    intro p idx i c hci hk
    cases i with
    | zero =>
      simp at hci
      subst hci
      refine ⟨[], listValidateLoop f cs p (idx + 1), ?_⟩
      simp [listValidateLoop, hk]
    | succ i' =>
      obtain ⟨s, t, hst⟩ := ih p (idx + 1) i' c (by simpa using hci) hk
      rw [show idx + (i' + 1) = (idx + 1) + i' by omega]
      refine ⟨(if c0.isFullyKnown then f c0 (p.atListIndex idx) else []) ++ s, t, ?_⟩
      simp only [listValidateLoop]
      rw [← hst]
      simp [List.append_assoc]

/-- Map analogue of `listValidateLoop_infix`. -/
theorem mapValidateLoop_infix (f : TFValue → Path → List Diagnostic) :
    ∀ (es : List (String × TFValue)) (p : Path) (k : String) (c : TFValue),
    (k, c) ∈ es → c.isFullyKnown = true →
    List.IsInfix (f c (p.atMapKey k)) (mapValidateLoop f es p) := by
  intro es
  induction es with
  | nil => intro p k c hkc; simp at hkc
  | cons e es ih =>
    intro p k c hkc hk
    rcases List.mem_cons.mp hkc with heq | hmem
    · subst heq
      refine ⟨[], mapValidateLoop f es p, ?_⟩
      simp [mapValidateLoop, hk]
    · obtain ⟨s, t, hst⟩ := ih p k c hmem hk
      refine ⟨(if e.2.isFullyKnown then f e.2 (p.atMapKey e.1) else []) ++ s, t, ?_⟩
      simp only [mapValidateLoop]
      rw [← hst]
      simp [List.append_assoc]

/-- When the element conversion accepts every fully known child, each
fully known child's element-validation diagnostics followed by its
duplicate scan form a contiguous segment of the set outer loop's
output. -/
theorem setValidateLoop_infix_some (ev : TFValue → Path → List Diagnostic)
    (conv : TFValue → Except String AttrValue) :
    ∀ (cs : List TFValue) (p : Path),
    (∀ c ∈ cs, c.isFullyKnown = true → ∃ a, conv c = Except.ok a) →
    ∀ (i : Nat) (c : TFValue) (a : AttrValue),
    cs[i]? = some c → c.isFullyKnown = true → conv c = Except.ok a →
    List.IsInfix (ev c (p.atSetValue a) ++ setDupScan c (cs.drop (i + 1)) p)
      (setValidateLoop (some (ev, conv)) cs p) := by
  intro cs
  induction cs with
  | nil => intro p _ i c a hci; simp at hci
  | cons c0 cs ih =>
    intro p hconv i c a hci hk hca
    cases i with
    | zero =>
      simp at hci
      subst hci
      refine ⟨[], setValidateLoop (some (ev, conv)) cs p, ?_⟩
      rw [setValidateLoop_cons_some, if_neg (by simp [hk]), hca]
      simp [List.append_assoc]
    | succ i' =>
      have hconv' : ∀ c' ∈ cs, c'.isFullyKnown = true → ∃ a', conv c' = Except.ok a' := by
        intro c' hc'
        exact hconv c' (by simp [hc'])
      obtain ⟨s, t, hst⟩ := ih p hconv' i' c a (by simpa using hci) hk hca
      rw [List.drop_succ_cons]
      by_cases hk0 : c0.isFullyKnown
      · obtain ⟨a0, ha0⟩ := hconv c0 (by simp) hk0
        refine ⟨(ev c0 (p.atSetValue a0) ++ setDupScan c0 cs p) ++ s, t, ?_⟩
        rw [setValidateLoop_cons_some, if_neg (by simp [hk0]), ha0, ← hst]
        simp [List.append_assoc]
      · refine ⟨s, t, ?_⟩
        rw [setValidateLoop_cons_some, if_pos (by simp [hk0]), ← hst]

/-- Claim C2 as amended: list and map validation never abort because of
an individual element — every fully known element's recursive validation
diagnostics appear contiguously in the output, whatever the other
elements produce; set validation likewise accumulates each fully known
element's validation and duplicate-scan diagnostics, provided the
element conversion accepts every fully known child (a failing element
conversion aborts the remaining checks, and a hard decode failure of the
entire collection aborts them as well). -/
theorem claim_C2 : ∀ (e' : AttrTy), e'.isValidatableTy = true → ∀ (vt : TFType) (p : Path),
    (∀ cs : List TFValue, vt.isList = true → ∀ (i : Nat) (c : TFValue),
      cs[i]? = some c → c.isFullyKnown = true →
      List.IsInfix (validate e' c (p.atListIndex i))
        (validate (AttrTy.listT (some e')) (TFValue.coll (some vt) cs) p)) ∧
    (∀ es : List (String × TFValue), vt.isMap = true → ∀ (k : String) (c : TFValue),
      (k, c) ∈ es → c.isFullyKnown = true →
      List.IsInfix (validate e' c (p.atMapKey k))
        (validate (AttrTy.mapT (some e')) (TFValue.mapv (some vt) es) p)) ∧
    (∀ cs : List TFValue, vt.isSet = true →
      (∀ c ∈ cs, c.isFullyKnown = true → ∃ a, valueFromTerraform e' c = Except.ok a) →
      ∀ (i : Nat) (c : TFValue) (a : AttrValue),
      cs[i]? = some c → c.isFullyKnown = true →
      valueFromTerraform e' c = Except.ok a →
      List.IsInfix (validate e' c (p.atSetValue a) ++ setDupScan c (cs.drop (i + 1)) p)
        (validate (AttrTy.setT (some e')) (TFValue.coll (some vt) cs) p)) := by
  intro e' hval vt p
  refine ⟨?_, ?_, ?_⟩
  · intro cs hshape i c hci hk
    have hcore : validate (AttrTy.listT (some e')) (TFValue.coll (some vt) cs) p =
        listValidateLoop (fun c q => validate e' c q) cs p 0 := by
      simp [validate, listValidateCore, TFValue.typeOf, TFValue.isKnown, TFValue.isNull,
        TFValue.asColl, hshape, hval]
    rw [hcore]
    have := listValidateLoop_infix (fun c q => validate e' c q) cs p 0 i c hci hk
    simpa using this
  · intro es hshape k c hkc hk
    have hcore : validate (AttrTy.mapT (some e')) (TFValue.mapv (some vt) es) p =
        mapValidateLoop (fun c q => validate e' c q) es p := by
      simp [validate, mapValidateCore, TFValue.typeOf, TFValue.isKnown, TFValue.isNull,
        TFValue.asEntries, hshape, hval]
    rw [hcore]
    exact mapValidateLoop_infix (fun c q => validate e' c q) es p k c hkc hk
  · intro cs hshape hconv i c a hci hk hca
    have hcore : validate (AttrTy.setT (some e')) (TFValue.coll (some vt) cs) p =
        setValidateLoop
          (some ((fun c q => validate e' c q), (fun c => valueFromTerraform e' c))) cs p := by
      simp [validate, setValidateCore, TFValue.typeOf, TFValue.isKnown, TFValue.isNull,
        TFValue.asColl, hshape, hval]
    rw [hcore]
    exact setValidateLoop_infix_some _ _ cs p hconv i c a hci hk hca

/-- Counterexample to C2 as stated: validating the set wire value
`["a","b"]` (of string wire type) against a set-of-sets-of-strings type
makes every element's conversion fail, yet exactly one diagnostic — the
first element's conversion error — is recorded: the scan aborted on the
first element's failure instead of accumulating the second element's
independent failure. -/
theorem counterexample_C2 :
    (validate (AttrTy.setT (some (AttrTy.setT (some AttrTy.stringT))))
      (TFValue.coll (some (TFType.set TFType.string)) [wireStr "a", wireStr "b"]) []).length = 1 ∧
    TFValue.isFullyKnown (wireStr "b") = true ∧
    (∃ msg, valueFromTerraform (AttrTy.setT (some AttrTy.stringT)) (wireStr "a") =
      Except.error msg) ∧
    (∃ msg, valueFromTerraform (AttrTy.setT (some AttrTy.stringT)) (wireStr "b") =
      Except.error msg) := by
  exact ⟨rfl, rfl, ⟨_, rfl⟩, ⟨_, rfl⟩⟩

/-- Witness for C2 at concrete inputs: validating the wire list
`["a","b"]` against a list-of-lists type, both elements fail their own
validation, and the second element's diagnostics still appear — the
first element's failure did not abort the loop. -/
theorem claim_C2_witness :
    List.IsInfix
      (validate (AttrTy.listT (some AttrTy.stringT)) (wireStr "b")
        (Path.atListIndex [] 1))
      (validate (AttrTy.listT (some (AttrTy.listT (some AttrTy.stringT))))
        (TFValue.coll (some (TFType.list TFType.string)) [wireStr "a", wireStr "b"]) []) :=
  ((claim_C2 (AttrTy.listT (some AttrTy.stringT)) rfl (TFType.list TFType.string) []).1
    [wireStr "a", wireStr "b"] rfl 1 (wireStr "b") rfl rfl)

/-- Counting the duplicate diagnostics naming `v` in the set outer loop
without a validatable element type: one per unordered pair of positions
holding `v`, when all children are fully known and render faithfully. -/
theorem setValidateLoop_dup_count_none (p : Path) (v : TFValue) :
    ∀ (cs : List TFValue),
    (∀ c ∈ cs, c.isFullyKnown = true) →
    (∀ c ∈ cs, TFValue.render c = TFValue.render v → c = v) →
    List.countP (fun d => decide (d = dupDiag p v)) (setValidateLoop none cs p) =
      dupPairCount v cs := by
  intro cs
  induction cs with
  | nil =>
    intro _ _
    simp [setValidateLoop, dupPairCount]
  | cons c cs ih =>
    intro hall hsep
    have hk : c.isFullyKnown = true := hall c (by simp)
    rw [setValidateLoop_cons_none, if_neg (by simp [hk]), List.countP_append,
      setDupScan_dup_count p v c cs (fun c' hc' => hsep c' (by simp [hc'])),
      ih (fun c' hc' => hall c' (by simp [hc'])) (fun c' hc' => hsep c' (by simp [hc']))]
    simp [dupPairCount]

/-- Counting the duplicate diagnostics naming `v` in the set outer loop
with a validatable element type whose conversion accepts every child:
element-validation diagnostics never count (they live strictly below the
set-value step), so again one diagnostic per unordered pair of positions
holding `v`. -/
theorem setValidateLoop_dup_count_some (ev : TFValue → Path → List Diagnostic)
    (conv : TFValue → Except String AttrValue) (p : Path) (v : TFValue)
    (hev : ∀ c q d, d ∈ ev c q → ∃ ext, d.path = some (q ++ ext)) :
    ∀ (cs : List TFValue),
    (∀ c ∈ cs, c.isFullyKnown = true) →
    (∀ c ∈ cs, ∃ a, conv c = Except.ok a) →
    (∀ c ∈ cs, TFValue.render c = TFValue.render v → c = v) →
    List.countP (fun d => decide (d = dupDiag p v)) (setValidateLoop (some (ev, conv)) cs p) =
      dupPairCount v cs := by
  intro cs
  induction cs with
  | nil =>
    intro _ _ _
    simp [setValidateLoop, dupPairCount]
  | cons c cs ih =>
    intro hall hconv hsep
    have hk : c.isFullyKnown = true := hall c (by simp)
    obtain ⟨a, ha⟩ := hconv c (by simp)
    rw [setValidateLoop_cons_some, if_neg (by simp [hk]), ha, List.countP_append,
      List.countP_append]
    have hev0 : List.countP (fun d => decide (d = dupDiag p v)) (ev c (p.atSetValue a)) = 0 := by
      refine List.countP_eq_zero.mpr ?_
      intro d hd
      obtain ⟨ext, hext⟩ := hev c (p.atSetValue a) d hd
      simp only [decide_eq_true_eq]
      intro heq
      subst heq
      have hpd : (dupDiag p v).path = some p := rfl
      rw [hpd] at hext
      injection hext with hext
      have hlen := congrArg List.length hext
      simp [Path.atSetValue] at hlen
    rw [hev0,
      setDupScan_dup_count p v c cs (fun c' hc' => hsep c' (by simp [hc'])),
      ih (fun c' hc' => hall c' (by simp [hc'])) (fun c' hc' => hconv c' (by simp [hc']))
        (fun c' hc' => hsep c' (by simp [hc']))]
    simp [dupPairCount]

/-- The pairwise duplicate count equals `k * (k - 1) / 2` (stated
doubled to avoid division), where `k` is the number of occurrences. -/
theorem two_mul_dupPairCount (v : TFValue) : ∀ (cs : List TFValue),
    2 * dupPairCount v cs =
      (cs.countP (fun c => decide (c = v))) * ((cs.countP (fun c => decide (c = v))) - 1) := by
  intro cs
  induction cs with
  | nil => simp [dupPairCount]
  | cons c cs ih =>
    simp only [dupPairCount, List.countP_cons]
    by_cases hc : c = v
    · rw [if_pos hc]
      have hdec : (decide (c = v)) = true := by simp [hc]
      rw [hdec, if_pos rfl]
      rcases Nat.eq_zero_or_pos (cs.countP (fun c' => decide (c' = v))) with h0 | hpos
      · rw [h0] at ih ⊢
        omega
      · obtain ⟨m, hm⟩ : ∃ m, cs.countP (fun c' => decide (c' = v)) = m + 1 :=
          ⟨cs.countP (fun c' => decide (c' = v)) - 1, by omega⟩
        rw [hm] at ih ⊢
        have ih' : 2 * dupPairCount v cs = (m + 1) * m := by
          simpa using ih
        have hring : (m + 1 + 1) * (m + 1 + 1 - 1) = 2 * (m + 1) + (m + 1) * m := by
          have hsub : m + 1 + 1 - 1 = m + 1 := by omega
          rw [hsub]
          ring
        rw [hring]
        linarith
    · rw [if_neg hc]
      have hd : (decide (c = v)) = false := by simp [hc]
      rw [hd]
      simpa using ih

/-- Claim C9 as amended: for every set-shaped, known, non-null wire
value whose children are all fully known, provided that a validatable
element type's conversion accepts every child (a failing conversion
aborts the scan) and that the wire rendering distinguishes the children
from `v` unless they equal it, if a value `v` occurs `k` times among the
children then `SetType.Validate` emits exactly `k * (k - 1) / 2`
duplicate-element diagnostics naming `v` — one per unordered pair of
equal positions, not one per duplicated value. -/
theorem claim_C9 : ∀ (e : Option AttrTy) (vt : TFType) (cs : List TFValue) (p : Path)
    (v : TFValue),
    vt.isSet = true →
    (∀ c ∈ cs, c.isFullyKnown = true) →
    (∀ e', e = some e' → e'.isValidatableTy = true →
      ∀ c ∈ cs, ∃ a, valueFromTerraform e' c = Except.ok a) →
    (∀ c ∈ cs, TFValue.render c = TFValue.render v → c = v) →
    List.countP (fun d => decide (d = dupDiag p v))
      (validate (AttrTy.setT e) (TFValue.coll (some vt) cs) p) =
      (cs.countP (fun c => decide (c = v))) *
        ((cs.countP (fun c => decide (c = v))) - 1) / 2 := by
  intro e vt cs p v hs hall hconv hsep
  have hdp : List.countP (fun d => decide (d = dupDiag p v))
      (validate (AttrTy.setT e) (TFValue.coll (some vt) cs) p) = dupPairCount v cs := by
    rcases e with _ | e'
    · have hcore : validate (AttrTy.setT none) (TFValue.coll (some vt) cs) p =
          setValidateLoop none cs p := by
        simp [validate, setValidateCore, TFValue.typeOf, TFValue.isKnown, TFValue.isNull,
          TFValue.asColl, hs]
      rw [hcore]
      exact setValidateLoop_dup_count_none p v cs hall hsep
    · by_cases hv : e'.isValidatableTy
      · have hcore : validate (AttrTy.setT (some e')) (TFValue.coll (some vt) cs) p =
            setValidateLoop
              (some ((fun c q => validate e' c q), (fun c => valueFromTerraform e' c))) cs p := by
          simp [validate, setValidateCore, TFValue.typeOf, TFValue.isKnown, TFValue.isNull,
            TFValue.asColl, hs, hv]
        rw [hcore]
        exact setValidateLoop_dup_count_some _ _ p v
          (fun c q d hd => validate_path_ext e' c q d hd) cs hall
          (hconv e' rfl hv) hsep
      · have hcore : validate (AttrTy.setT (some e')) (TFValue.coll (some vt) cs) p =
            setValidateLoop none cs p := by
          simp [validate, setValidateCore, TFValue.typeOf, TFValue.isKnown, TFValue.isNull,
            TFValue.asColl, hs, hv]
        rw [hcore]
        exact setValidateLoop_dup_count_none p v cs hall hsep
  rw [hdp]
  have h2 := two_mul_dupPairCount v cs
  omega

/-- Counterexample to C9 as stated: the set wire value `["a","a"]` (of
string wire type) has the fully known value `"a"` occurring twice, so
the claim demands `2 * 1 / 2 = 1` duplicate diagnostic; but validated
against a set-of-sets-of-strings type, the first element's conversion
fails and aborts the scan, so zero duplicate diagnostics are emitted. -/
theorem counterexample_C9 :
    (∀ c ∈ [wireStr "a", wireStr "a"], TFValue.isFullyKnown c = true) ∧
    List.countP (fun c => decide (c = wireStr "a")) [wireStr "a", wireStr "a"] = 2 ∧
    List.countP (fun d => decide (d = dupDiag [] (wireStr "a")))
      (validate (AttrTy.setT (some (AttrTy.setT (some AttrTy.stringT))))
        (TFValue.coll (some (TFType.set TFType.string)) [wireStr "a", wireStr "a"]) []) = 0 ∧
    (0 : Nat) ≠ 2 * (2 - 1) / 2 := by
  refine ⟨by decide, by decide, by decide, by decide⟩

/-- Witness for C9 at concrete inputs: in the set wire value
`["a","a","b"]` of strings the value `"a"` occurs twice and exactly one
duplicate diagnostic naming it is emitted. -/
theorem claim_C9_witness :
    List.countP (fun d => decide (d = dupDiag [] (wireStr "a")))
      (validate (AttrTy.setT (some AttrTy.stringT))
        (TFValue.coll (some (TFType.set TFType.string))
          [wireStr "a", wireStr "a", wireStr "b"]) []) =
      (List.countP (fun c => decide (c = wireStr "a"))
          [wireStr "a", wireStr "a", wireStr "b"]) *
        ((List.countP (fun c => decide (c = wireStr "a"))
          [wireStr "a", wireStr "a", wireStr "b"]) - 1) / 2 :=
  claim_C9 (some AttrTy.stringT) (TFType.set TFType.string)
    [wireStr "a", wireStr "a", wireStr "b"] [] (wireStr "a") rfl (by decide)
    (by intro e' he' hv
        injection he' with h
        subst h
        exact absurd hv (by decide))
    (by decide)

end TfFw
